import Mathlib

/-
Verification of the voxel/octree core of the ocmesh repository.

The C++ sources are shallowly embedded over `Nat`: a voxel is its single
64-bit packed word (`uint64_t _code`), modelled as a natural number kept
below `2 ^ 64` by explicit reductions wherever the C++ unsigned
arithmetic can wrap.  Bit operations of the source (`&`, `|`, `<<`, `>>`)
are modelled with the corresponding `Nat` bitwise operations, with the
`% 2 ^ 64` truncation of `uint64_t` written out, and implicit narrowing
at C++ parameter boundaries (`uint8_t`, `uint16_t`, `uint32_t`) written
as `% 2 ^ 8`, `% 2 ^ 16`, `% 2 ^ 32`.
-/

namespace Ocmesh

/-! Constants from `voxel.h` (class `voxel`). -/

/-- Source constant `voxel::precision = 13`. -/
def precision : Nat := 13

/-- Source constant `voxel::location_bits = precision * 3 = 39`. -/
def locationBits : Nat := 39

/-- Source constant `voxel::level_bits = clog2(precision) + 1 = 4`. -/
def levelBits : Nat := 4

/-- Source constant `voxel::material_bits = 64 - 39 - 4 = 21`. -/
def materialBits : Nat := 21

/-- Source constant `voxel::max_coordinate = (1 << 13) - 1 = 8191`. -/
def maxCoordinate : Nat := 8191

/-- Source constant `voxel::max_level = precision = 13`. -/
def maxLevel : Nat := 13

/-- Source constant `voxel::max_material = (1 << 21) - 1`. -/
def maxMaterial : Nat := 2 ^ 21 - 1

/-- Source constant `voxel::unknown_material = 0`. -/
def unknownMaterial : Nat := 0

/-- Source constant `voxel::void_material = 1`. -/
def voidMaterial : Nat := 1

/-- Source `lowmask(bits)` from voxel.h: `bits == 0 ? 0 : uint64_t(-1) >> (64 - bits)`. -/
def lowmask (bits : Nat) : Nat :=
  if bits = 0 then 0 else (2 ^ 64 - 1) >>> (64 - bits)

/-- Source `highmask(bits)` from voxel.h: `bits == 0 ? 0 : uint64_t(-1) << (64 - bits)`,
with the `uint64_t` wrap of the shift written as `% 2 ^ 64`. -/
def highmask (bits : Nat) : Nat :=
  if bits = 0 then 0 else ((2 ^ 64 - 1) <<< (64 - bits)) % 2 ^ 64

/-!
Morton codec.

Modelled from the spec: the free functions `morton(glm::u32vec3)` and
`unmorton` that `voxel.h` calls (in the constructor and in
`voxel::coordinates`) are not present under src — `morton.h` holds an
older revision of the voxel class whose `coordinates()` is
`assert("Unimplemented")` and whose member codec has an incompatible
signature.  Spec 4.A defines the codec by its bit property:
`interleave(v, c)` is the 64-bit word whose bit `3k+c` equals bit `k` of
`v`, all other bits zero; `morton(x,y,z)` is the bitwise OR of the three
interleaves; `unmorton` inverts it.  `spread` below realises exactly that
bit property for `c = 0` (bit `k` of `v` goes to bit `3k`), one binary
digit at a time.
-/

/-- Fuel-driven helper for `spread`; the fuel only serves to make the
recursion structural, and `spread` supplies enough of it for the recursion
never to starve (`v / 2 < v` whenever `v ≠ 0`). -/
def spreadAux : Nat → Nat → Nat
  | 0, _ => 0
  | fuel + 1, v => if v = 0 then 0 else v % 2 + 8 * spreadAux fuel (v / 2)

/-- Modelled from the spec: place bit `k` of `v` at bit `3 * k` of the result. -/
def spread (v : Nat) : Nat := spreadAux v v

/-- Modelled from the spec: `interleave(v, c)`, the word whose bit `3k+c` is bit `k` of `v`. -/
def interleave (v c : Nat) : Nat := spread v <<< c

/-- Modelled from the spec:
`morton(x,y,z) = interleave(x,0) | interleave(y,1) | interleave(z,2)`. -/
def morton (x y z : Nat) : Nat :=
  interleave x 0 ||| interleave y 1 ||| interleave z 2

/-- Fuel-driven helper for `ux`, as for `spreadAux`. -/
def uxAux : Nat → Nat → Nat
  | 0, _ => 0
  | fuel + 1, q => if q = 0 then 0 else q % 2 + 2 * uxAux fuel (q / 8)

/-- Modelled from the spec: bit `k` of the x component is bit `3k` of the word. -/
def ux (q : Nat) : Nat := uxAux q q

/-- Fuel-driven helper for `uy`, as for `spreadAux`. -/
def uyAux : Nat → Nat → Nat
  | 0, _ => 0
  | fuel + 1, q => if q = 0 then 0 else q / 2 % 2 + 2 * uyAux fuel (q / 8)

/-- Modelled from the spec: bit `k` of the y component is bit `3k+1` of the word. -/
def uy (q : Nat) : Nat := uyAux q q

/-- Fuel-driven helper for `uz`, as for `spreadAux`. -/
def uzAux : Nat → Nat → Nat
  | 0, _ => 0
  | fuel + 1, q => if q = 0 then 0 else q / 4 % 2 + 2 * uzAux fuel (q / 8)

/-- Modelled from the spec: bit `k` of the z component is bit `3k+2` of the word. -/
def uz (q : Nat) : Nat := uzAux q q

/-- Modelled from the spec: decode a Morton word into its three coordinates. -/
def unmorton (q : Nat) : Nat × Nat × Nat := (ux q, uy q, uz q)

namespace voxel

/-- Source `voxel::pack` (voxel.h):
`morton << (material_bits + level_bits) | level << material_bits | material`,
computed in `uint64_t` (hence the `% 2 ^ 64`). -/
def pack (m l mat : Nat) : Nat :=
  ((m <<< (materialBits + levelBits)) ||| (l <<< materialBits) ||| mat) % 2 ^ 64

/-- Source constructor `voxel(uint64_t morton, level_t level, material_t material)`:
the `level_t = uint8_t` and `material_t = uint32_t` parameters narrow their
arguments. -/
def mk (m l mat : Nat) : Nat := pack m (l % 2 ^ 8) (mat % 2 ^ 32)

/-- Source constructor `voxel(glm::u16vec3 coordinates, level_t level, uint32_t material)`:
delegates to the packed constructor with `morton(coordinates)`; the `u16vec3`
components narrow to 16 bits. -/
def mkCoords (x y z l mat : Nat) : Nat :=
  mk (morton (x % 2 ^ 16) (y % 2 ^ 16) (z % 2 ^ 16)) l mat

/-- Source `voxel::level()`: `(_code >> material_bits) & lowmask(level_bits)`. -/
def level (c : Nat) : Nat := (c >>> materialBits) &&& lowmask levelBits

/-- Source `voxel::material()`: `_code & lowmask(material_bits)`. -/
def material (c : Nat) : Nat := c &&& lowmask materialBits

/-- Source `voxel::morton()`: `(_code >> (material_bits + level_bits)) & lowmask(location_bits)`. -/
def morton (c : Nat) : Nat :=
  (c >>> (materialBits + levelBits)) &&& lowmask locationBits

/-- Source `voxel::height()`: `max_level - level()`, computed in `size_t`
(wrapping subtraction) and narrowed to the `uint8_t` return type. -/
def height (c : Nat) : Nat := ((2 ^ 64 + maxLevel - level c) % 2 ^ 64) % 2 ^ 8

/-- Source `voxel::size()`: `1 << height()`, narrowed to the `uint16_t` return type. -/
def size (c : Nat) : Nat := (1 <<< height c) % 2 ^ 16

/-- Source `voxel::coordinates()`: `glm::u16vec3(unmorton(morton()))`, the
`u16vec3` conversion narrowing each component to 16 bits. -/
def coordinates (c : Nat) : Nat × Nat × Nat :=
  ((unmorton (morton c)).1 % 2 ^ 16,
   (unmorton (morton c)).2.1 % 2 ^ 16,
   (unmorton (morton c)).2.2 % 2 ^ 16)

/-- Source `voxel::with_material(mat)`:
`voxel( (_code & highmask(location_bits + level_bits)) | mat )` with the
`material_t = uint32_t` parameter narrowing. -/
def withMaterial (c mat : Nat) : Nat :=
  (c &&& highmask (locationBits + levelBits)) ||| (mat % 2 ^ 32)

/-- Source `voxel::root()`: `{ { 0, 0, 0 }, max_level, 0 }`. -/
def root : Nat := mkCoords 0 0 0 maxLevel 0

/-- Increment between consecutive children in `voxel::children()`:
`uint64_t l = level() + 1; uint64_t h = height() - 1; inc = uint64_t(1) << (h * 3)`.
The function asserts `height() > 0`; under that precondition the wrapping
subtraction is the plain one. -/
def inc (c : Nat) : Nat := (1 <<< ((height c - 1) * 3)) % 2 ^ 64

/-- Child number `i` produced by `voxel::children()`:
`voxel(morton() + i * inc, level() + 1, material())`, the Morton sum taken in
`uint64_t`. -/
def child (c i : Nat) : Nat :=
  mk ((morton c + i * inc c) % 2 ^ 64) (level c + 1) (material c)

/-- Source `voxel::children()`: the eight children in Morton order. -/
def children (c : Nat) : List Nat := (List.range 8).map (child c)

end voxel

/-! Faces and the same-size neighbor (`voxel::neighbor`, voxel.h). -/

/-- Source enum `voxel::face`. -/
inductive Face where
  | left
  | right
  | bottom
  | top
  | back
  | front
deriving DecidableEq, Repr

/-- Source: `bool add_size = d == right || d == top || d == front`. -/
def addSize : Face → Bool
  | .right | .top | .front => true
  | _ => false

/-- Source: `uint8_t index = d == left || d == right ? 0 : d == top || d == bottom ? 1 : 2`. -/
def faceIndex : Face → Nat
  | .left | .right => 0
  | .top | .bottom => 1
  | _ => 2

/-- Source `add_is_safe(x, y)` (voxel.h): `x <= numeric_limits<uint16_t>::max() - y`. -/
def addIsSafe (x y : Nat) : Bool := decide (x ≤ 65535 - y)

/-- Component access `coordinates[index]` on a `u16vec3` value. -/
def getCoord (p : Nat × Nat × Nat) (i : Nat) : Nat :=
  if i = 0 then p.1 else if i = 1 then p.2.1 else p.2.2

/-- Component update `coordinates[index] = v` on a `u16vec3` value. -/
def setCoord (p : Nat × Nat × Nat) (i v : Nat) : Nat × Nat × Nat :=
  if i = 0 then (v, p.2.1, p.2.2)
  else if i = 1 then (p.1, v, p.2.2)
  else (p.1, p.2.1, v)

namespace voxel

/-- Source `voxel::neighbor(face d)` (voxel.h lines 316-352).  The branch-free
arithmetic of the source (`coordinates[index] += has_neighbor * (add_size * size() - (!add_size))`
followed by `voxel(has_neighbor * coordinates, has_neighbor * max_level, has_neighbor * material())`)
is written out by cases on the `has_neighbor` flag: when the flag is zero the
multiplications zero out all constructor arguments, otherwise the selected
coordinate moves by `+size()` (in `uint16_t`, hence `% 2 ^ 16`) or by `-1`. -/
def neighbor (c : Nat) (d : Face) : Nat :=
  let add_size := addSize d
  let index := faceIndex d
  let coords := coordinates c
  let comp := getCoord coords index
  let has_neighbor : Bool :=
    (add_size && addIsSafe comp (size c)) || (!add_size && decide (0 < comp))
  let newCoords :=
    if has_neighbor then
      setCoord coords index (if add_size then (comp + size c) % 2 ^ 16 else comp - 1)
    else coords
  if has_neighbor then
    mkCoords newCoords.1 newCoords.2.1 newCoords.2.2 maxLevel (material c)
  else
    mkCoords 0 0 0 0 0

/-- Source `voxel::corners()` (voxel.h): the eight corner coordinates in
Morton order; the `u16vec3` component additions wrap at 16 bits. -/
def corners (c : Nat) : List (Nat × Nat × Nat) :=
  let p := coordinates c
  let edge := size c
  [p,
   ((p.1 + edge) % 2 ^ 16, p.2.1, p.2.2),
   (p.1, (p.2.1 + edge) % 2 ^ 16, p.2.2),
   ((p.1 + edge) % 2 ^ 16, (p.2.1 + edge) % 2 ^ 16, p.2.2),
   (p.1, p.2.1, (p.2.2 + edge) % 2 ^ 16),
   ((p.1 + edge) % 2 ^ 16, p.2.1, (p.2.2 + edge) % 2 ^ 16),
   (p.1, (p.2.1 + edge) % 2 ^ 16, (p.2.2 + edge) % 2 ^ 16),
   ((p.1 + edge) % 2 ^ 16, (p.2.1 + edge) % 2 ^ 16, (p.2.2 + edge) % 2 ^ 16)]

end voxel

/-! The octree neighbor search (`octree::neighbor`, octree.cpp). -/

/-- Model of `std::lower_bound(begin(), end(), k)` on the sorted voxel
sequence: the position of the first element that is not less than `k`
(`data.length` plays the role of `end()`). -/
def lowerBound (data : List Nat) (k : Nat) : Nat :=
  List.findIdx (fun x => decide (k ≤ x)) data

/-- Source `octree::neighbor(node, d)` (octree.cpp lines 24-38):
`voxel candidate = node->neighbor(d); return std::lower_bound(begin(), end(), candidate)`. -/
def octreeNeighbor (data : List Nat) (c : Nat) (d : Face) : Nat :=
  lowerBound data (voxel.neighbor c d)

/-! The OBJ mesh emitter (obj.cpp). -/

/-- Source table `make_faces()` (obj.cpp): for each of the six faces, the
normal index and the six corner indices of its two triangles, with the
corner enumeration `left_bottom_back = 0 ... right_top_front = 7` and the
face order `left, right, bottom(down), top(up), back, front`. -/
def objFaces : List (Nat × List Nat) :=
  [(0, [5, 7, 6, 5, 6, 4]),
   (1, [0, 2, 3, 0, 3, 1]),
   (2, [1, 5, 4, 1, 4, 0]),
   (3, [7, 3, 2, 7, 2, 6]),
   (4, [4, 6, 2, 4, 2, 0]),
   (5, [1, 3, 7, 1, 7, 5])]

/-- Vertices written by `obj::write` after `obj_mesh` has called `cube(v)`
for every voxel of the octree: eight corners per voxel, in order. -/
def objVertices (data : List Nat) : List (Nat × Nat × Nat) :=
  data.flatMap voxel.corners

/-- Base vertex indexes recorded by `obj::cube` (`_indexes.push_back(_vertices.size())`):
the i-th cube starts at vertex `8 * i`. -/
def objIndexes (data : List Nat) : List Nat :=
  (List.range data.length).map (fun i => 8 * i)

/-- Triangles written by `obj::write`: for every recorded cube base index and
every face, two triangles; each triangle carries its three 1-based vertex
references and the 1-based normal index. -/
def objTriangles (data : List Nat) : List ((Nat × Nat × Nat) × Nat) :=
  (objIndexes data).flatMap (fun i =>
    objFaces.flatMap (fun f =>
      [((f.2.getD 0 0 + i + 1, f.2.getD 1 0 + i + 1, f.2.getD 2 0 + i + 1), f.1 + 1),
       ((f.2.getD 3 0 + i + 1, f.2.getD 4 0 + i + 1, f.2.getD 5 0 + i + 1), f.1 + 1)]))

/-! The octree builder (`octree::build`, octree.cpp lines 42-70). -/

/-- Weight of one buffer slot, used as the loop variant of the builder:
a voxel at level `l` can generate at most `2 * 8 ^ (13 - l) - 1` buffer
examinations. -/
def cellWeight (v : Nat) : Nat := 2 * 8 ^ (maxLevel - voxel.level v) - 1

/-- Loop variant: total weight of the not-yet-finalized suffix of the buffer. -/
def loopMeasure (data : List Nat) (i : Nat) : Nat :=
  ((data.drop i).map cellWeight).sum

/-- One iteration of the `for` loop in `octree::build`: read `v = _data[i]`,
call the split function, and either subdivide in place (replace slot `i` with
child 0, append children 1..7, and stay at `i` — the source's `--i` followed by
the loop increment) or finalize slot `i` with the returned material and advance.
The `split` result is narrowed to `material_t = uint32_t`. -/
def buildStep (split : Nat → Nat) (data : List Nat) (i : Nat) : List Nat × Nat :=
  let v := data.getD i 0
  let m := split v % 2 ^ 32
  if voxel.level v < maxLevel ∧ m = unknownMaterial then
    (data.set i (voxel.child v 0) ++ (voxel.children v).drop 1, i)
  else
    (data.set i (voxel.withMaterial v m), i + 1)

/-- Fuel-driven form of the `for` loop of `octree::build`; `buildLoop`
supplies one more unit of fuel than the loop variant `loopMeasure`, which by
`buildStep_measure` strictly decreases at every iteration, so the fuel never
starves. -/
def buildLoopF (split : Nat → Nat) : Nat → List Nat → Nat → List Nat
  | 0, data, _ => data
  | fuel + 1, data, i =>
    if i < data.length then
      buildLoopF split fuel (buildStep split data i).1 (buildStep split data i).2
    else data

/-- The `for` loop of `octree::build`. -/
def buildLoop (split : Nat → Nat) (data : List Nat) (i : Nat) : List Nat :=
  buildLoopF split (loopMeasure data i + 1) data i

/-- Source `octree::build` seeds the empty buffer with the default-constructed
voxel: `_data.push_back(voxel{})`, whose code is 0. -/
def buildSeed : List Nat := [0]

/-- Source `octree::build(split_function)`: seed, run the expansion loop, then
`std::sort` the buffer ascending by `code()`. -/
def build (split : Nat → Nat) : List Nat :=
  List.insertionSort (· ≤ ·) (buildLoop split buildSeed 0)

/-!
CSG signed-distance evaluation (csg.h / csg.cpp).

The node hierarchy (`sphere_t`, `cube_t`, `union_t`, `intersection_t`,
`difference_t`, `transform_t`, `toplevel_t`, all subclasses of `object`
with a virtual `float distance(glm::vec3 const&)`) is embedded as an
inductive tree, with `float` modelled as `ℝ` and `glm::vec3` as
`ℝ × ℝ × ℝ`.  `transform_t` stores both matrices; its constructor computes
`_world_to_object = glm::inverse(object_to_world)`, which the embedding
keeps as a field since the claims only concern how `distance` uses it.
-/

/-- The CSG node hierarchy of csg.h. -/
inductive csg where
  | sphere (radius : ℝ)
  | cube (side : ℝ)
  | unionOp (left right : csg)
  | intersectionOp (left right : csg)
  | differenceOp (left right : csg)
  | transform (object_to_world world_to_object : Matrix (Fin 4) (Fin 4) ℝ) (child : csg)
  | toplevel (child : csg) (material : Nat)

/-- The virtual `distance` of each node class, from csg.cpp:
sphere: `glm::length(from) - _radius`;
cube: `max({|x|,|y|,|z|}) - _side / 2`;
union: `min(left, right)`; intersection: `max(left, -right)`;
difference: `max(left, right)`;
transform: child distance of `world_to_object() * (from, 1)`;
toplevel: the child's distance. -/
noncomputable def csgDistance : csg → ℝ × ℝ × ℝ → ℝ
  | .sphere r, p => Real.sqrt (p.1 ^ 2 + p.2.1 ^ 2 + p.2.2 ^ 2) - r
  | .cube s, p => max (max |p.1| |p.2.1|) |p.2.2| - s / 2
  | .unionOp l r, p => min (csgDistance l p) (csgDistance r p)
  | .intersectionOp l r, p => max (csgDistance l p) (-csgDistance r p)
  | .differenceOp l r, p => max (csgDistance l p) (csgDistance r p)
  | .transform _ w2o ch, p =>
      csgDistance ch
        ((w2o.mulVec ![p.1, p.2.1, p.2.2, 1]) 0,
         (w2o.mulVec ![p.1, p.2.1, p.2.2, 1]) 1,
         (w2o.mulVec ![p.1, p.2.1, p.2.2, 1]) 2)
  | .toplevel ch _, p => csgDistance ch p

/-!
Invariants of the builder buffer.  A buffer slot is valid when its level is
in range and its Morton interval `[morton, morton + 8 ^ height)` lies inside
the root interval; two slots are independent when their Morton intervals are
disjoint.  The expansion loop preserves both, which is what makes the final
sorted sequence strictly increasing.
-/

/-- Validity of one buffer slot of the builder. -/
def ValidVoxel (v : Nat) : Prop :=
  voxel.level v ≤ 13 ∧ v < 2 ^ 64 ∧
  voxel.morton v + 8 ^ (13 - voxel.level v) ≤ 8 ^ 13

/-- Disjointness of the Morton intervals of two buffer slots. -/
def Disj (a b : Nat) : Prop :=
  voxel.morton a + 8 ^ (13 - voxel.level a) ≤ voxel.morton b ∨
  voxel.morton b + 8 ^ (13 - voxel.level b) ≤ voxel.morton a

/-- Source default constructor `voxel() = default`: `uint64_t _code = 0`. -/
def voxelDefault : Nat := 0

/-- Membership of an integer point in the half-open cube with the given
minimum corner and edge length. -/
def inCube (pt corner : Nat × Nat × Nat) (side : Nat) : Prop :=
  corner.1 ≤ pt.1 ∧ pt.1 < corner.1 + side ∧
  corner.2.1 ≤ pt.2.1 ∧ pt.2.1 < corner.2.1 + side ∧
  corner.2.2 ≤ pt.2.2 ∧ pt.2.2 < corner.2.2 + side

/-! Example split predicates used as concrete inputs. -/

/-- Example split predicate: subdivide the whole-space voxel once, then
assign material 2 everywhere. -/
def splitOnce : Nat → Nat :=
  fun v => if voxel.level v = 0 then unknownMaterial else 2

/-- Example split predicate: leave the Morton-0 path undecided all the way to
the deepest level, void elsewhere. -/
def splitStuck : Nat → Nat :=
  fun v => if voxel.morton v = 0 then unknownMaterial else voidMaterial

/-- Example split predicate: void everywhere. -/
def splitVoid : Nat → Nat := fun _ => voidMaterial

/-- Generic length of a flat map whose pieces have constant length. -/

theorem lowmask_eq (bits : Nat) (h : bits ≤ 64) : lowmask bits = 2 ^ bits - 1 := by
  unfold lowmask
  rcases Nat.eq_zero_or_pos bits with h0 | h0
  · simp [h0]
  · rw [if_neg (by omega), Nat.shiftRight_eq_div_pow]
    have h1 : 2 ^ (64 - bits) * 2 ^ bits = 2 ^ 64 := by
      rw [← Nat.pow_add]; congr 1; omega
    have h2 : 0 < 2 ^ bits := Nat.pos_pow_of_pos _ (by omega)
    have h3 : 0 < 2 ^ (64 - bits) := Nat.pos_pow_of_pos _ (by omega)
    have e1 : 2 ^ (64 - bits) * (2 ^ bits - 1) + 2 ^ (64 - bits) =
        2 ^ (64 - bits) * 2 ^ bits := by
      calc 2 ^ (64 - bits) * (2 ^ bits - 1) + 2 ^ (64 - bits)
          = 2 ^ (64 - bits) * (2 ^ bits - 1 + 1) := by ring
        _ = 2 ^ (64 - bits) * 2 ^ bits := by rw [Nat.sub_add_cancel h2]
    have hsplit : 2 ^ 64 - 1 =
        2 ^ (64 - bits) * (2 ^ bits - 1) + (2 ^ (64 - bits) - 1) := by omega
    rw [hsplit, Nat.add_comm, Nat.add_mul_div_left _ _ h3,
      Nat.div_eq_of_lt (by omega)]
    omega

theorem highmask_eq (bits : Nat) (h : bits ≤ 64) :
    highmask bits = 2 ^ 64 - 2 ^ (64 - bits) := by
  unfold highmask
  rcases Nat.eq_zero_or_pos bits with h0 | h0
  · simp [h0]
  · rw [if_neg (by omega), Nat.shiftLeft_eq]
    have h1 : 2 ^ 64 * 2 ^ (64 - bits) = 2 ^ (64 - bits) * 2 ^ 64 := by ring
    have h3 : 0 < 2 ^ (64 - bits) := Nat.pos_pow_of_pos _ (by omega)
    have h4 : 2 ^ (64 - bits) ≤ 2 ^ 64 :=
      Nat.pow_le_pow_right (by omega) (by omega)
    have e2 : 2 ^ 64 * (2 ^ (64 - bits) - 1) + 2 ^ 64 = 2 ^ 64 * 2 ^ (64 - bits) := by
      calc 2 ^ 64 * (2 ^ (64 - bits) - 1) + 2 ^ 64
          = 2 ^ 64 * (2 ^ (64 - bits) - 1 + 1) := by ring
        _ = 2 ^ 64 * 2 ^ (64 - bits) := by rw [Nat.sub_add_cancel h3]
    have e4 : (2 ^ 64 - 1) * 2 ^ (64 - bits) + 2 ^ (64 - bits) = 2 ^ 64 * 2 ^ (64 - bits) := by
      calc (2 ^ 64 - 1) * 2 ^ (64 - bits) + 2 ^ (64 - bits)
          = (2 ^ 64 - 1 + 1) * 2 ^ (64 - bits) := by ring
        _ = 2 ^ 64 * 2 ^ (64 - bits) := by
            rw [Nat.sub_add_cancel (Nat.pos_pow_of_pos _ (by omega))]
    have hval : (2 ^ 64 - 1) * 2 ^ (64 - bits) =
        2 ^ 64 * (2 ^ (64 - bits) - 1) + (2 ^ 64 - 2 ^ (64 - bits)) := by omega
    rw [hval, Nat.mul_add_mod, Nat.mod_eq_of_lt (by omega)]

theorem spreadAux_congr : ∀ f1 f2 v : Nat, v ≤ f1 → v ≤ f2 →
    spreadAux f1 v = spreadAux f2 v := by
  intro f1
  induction f1 with
  | zero =>
    intro f2 v h1 h2
    have hv : v = 0 := by omega
    subst hv
    cases f2 with
    | zero => rfl
    | succ g => simp [spreadAux]
  | succ a ih =>
    intro f2 v h1 h2
    by_cases hv : v = 0
    · subst hv
      cases f2 with
      | zero => simp [spreadAux]
      | succ g => simp [spreadAux]
    · cases f2 with
      | zero => omega
      | succ g =>
        have hd : v / 2 < v := Nat.div_lt_self (by omega) (by omega)
        simp only [spreadAux, if_neg hv]
        rw [ih g (v / 2) (by omega) (by omega)]

theorem uxAux_congr : ∀ f1 f2 q : Nat, q ≤ f1 → q ≤ f2 →
    uxAux f1 q = uxAux f2 q := by
  intro f1
  induction f1 with
  | zero =>
    intro f2 q h1 h2
    have hq : q = 0 := by omega
    subst hq
    cases f2 with
    | zero => rfl
    | succ g => simp [uxAux]
  | succ a ih =>
    intro f2 q h1 h2
    by_cases hq : q = 0
    · subst hq
      cases f2 with
      | zero => simp [uxAux]
      | succ g => simp [uxAux]
    · cases f2 with
      | zero => omega
      | succ g =>
        have hd : q / 8 < q := Nat.div_lt_self (by omega) (by omega)
        simp only [uxAux, if_neg hq]
        rw [ih g (q / 8) (by omega) (by omega)]

theorem uyAux_congr : ∀ f1 f2 q : Nat, q ≤ f1 → q ≤ f2 →
    uyAux f1 q = uyAux f2 q := by
  intro f1
  induction f1 with
  | zero =>
    intro f2 q h1 h2
    have hq : q = 0 := by omega
    subst hq
    cases f2 with
    | zero => rfl
    | succ g => simp [uyAux]
  | succ a ih =>
    intro f2 q h1 h2
    by_cases hq : q = 0
    · subst hq
      cases f2 with
      | zero => simp [uyAux]
      | succ g => simp [uyAux]
    · cases f2 with
      | zero => omega
      | succ g =>
        have hd : q / 8 < q := Nat.div_lt_self (by omega) (by omega)
        simp only [uyAux, if_neg hq]
        rw [ih g (q / 8) (by omega) (by omega)]

theorem uzAux_congr : ∀ f1 f2 q : Nat, q ≤ f1 → q ≤ f2 →
    uzAux f1 q = uzAux f2 q := by
  intro f1
  induction f1 with
  | zero =>
    intro f2 q h1 h2
    have hq : q = 0 := by omega
    subst hq
    cases f2 with
    | zero => rfl
    | succ g => simp [uzAux]
  | succ a ih =>
    intro f2 q h1 h2
    by_cases hq : q = 0
    · subst hq
      cases f2 with
      | zero => simp [uzAux]
      | succ g => simp [uzAux]
    · cases f2 with
      | zero => omega
      | succ g =>
        have hd : q / 8 < q := Nat.div_lt_self (by omega) (by omega)
        simp only [uzAux, if_neg hq]
        rw [ih g (q / 8) (by omega) (by omega)]

/-! Arithmetic characterizations of the bit-level definitions. -/

theorem and_lowmask (x n : Nat) (h : n ≤ 64) : x &&& lowmask n = x % 2 ^ n := by
  rw [lowmask_eq n h, Nat.and_pow_two_sub_one_eq_mod]

theorem level_arith (c : Nat) : voxel.level c = c / 2 ^ 21 % 2 ^ 4 := by
  unfold voxel.level
  rw [and_lowmask _ _ (by norm_num [levelBits]), Nat.shiftRight_eq_div_pow]
  rfl

theorem material_arith (c : Nat) : voxel.material c = c % 2 ^ 21 := by
  unfold voxel.material
  rw [and_lowmask _ _ (by norm_num [materialBits])]
  rfl

theorem morton_arith (c : Nat) : voxel.morton c = c / 2 ^ 25 % 2 ^ 39 := by
  unfold voxel.morton
  rw [and_lowmask _ _ (by norm_num [locationBits]), Nat.shiftRight_eq_div_pow]
  rfl

theorem level_lt (c : Nat) : voxel.level c < 16 := by
  rw [level_arith]; exact Nat.mod_lt _ (by norm_num)

theorem morton_lt (c : Nat) : voxel.morton c < 2 ^ 39 := by
  rw [morton_arith]; exact Nat.mod_lt _ (by norm_num)

theorem material_lt (c : Nat) : voxel.material c < 2 ^ 21 := by
  rw [material_arith]; exact Nat.mod_lt _ (by norm_num)

theorem height_eq (c : Nat) (h : voxel.level c ≤ 13) :
    voxel.height c = 13 - voxel.level c := by
  unfold voxel.height
  have : (2 ^ 64 + maxLevel - voxel.level c) % 2 ^ 64 = 13 - voxel.level c := by
    unfold maxLevel; omega
  rw [this]
  omega

theorem size_eq (c : Nat) (h : voxel.level c ≤ 13) :
    voxel.size c = 2 ^ (13 - voxel.level c) := by
  unfold voxel.size
  rw [height_eq c h, Nat.shiftLeft_eq, Nat.one_mul, Nat.mod_eq_of_lt]
  calc 2 ^ (13 - voxel.level c) ≤ 2 ^ 13 := Nat.pow_le_pow_right (by omega) (by omega)
    _ < 2 ^ 16 := by norm_num

theorem pack_eq (m l mat : Nat) (hm : m < 2 ^ 39) (hl : l < 2 ^ 4)
    (hmat : mat < 2 ^ 21) :
    voxel.pack m l mat = m * 2 ^ 25 + l * 2 ^ 21 + mat := by
  unfold voxel.pack
  have e25 : materialBits + levelBits = 25 := rfl
  have e21 : materialBits = 21 := rfl
  rw [e25, Nat.lor_assoc, Nat.shiftLeft_eq, Nat.shiftLeft_eq, e21]
  have e1 : l * 2 ^ 21 ||| mat = l * 2 ^ 21 + mat := by
    rw [Nat.mul_comm l (2 ^ 21), ← Nat.mul_add_lt_is_or hmat l, Nat.mul_comm]
  have hb : l * 2 ^ 21 + mat < 2 ^ 25 := by omega
  have e2 : m * 2 ^ 25 ||| (l * 2 ^ 21 + mat) = m * 2 ^ 25 + (l * 2 ^ 21 + mat) := by
    rw [Nat.mul_comm m (2 ^ 25), ← Nat.mul_add_lt_is_or hb m, Nat.mul_comm]
  rw [e1, e2, Nat.mod_eq_of_lt (by omega), Nat.add_assoc]

theorem level_pack (m l mat : Nat) (hm : m < 2 ^ 39) (hl : l < 2 ^ 4)
    (hmat : mat < 2 ^ 21) : voxel.level (voxel.pack m l mat) = l := by
  rw [pack_eq m l mat hm hl hmat, level_arith]
  omega

theorem material_pack (m l mat : Nat) (hm : m < 2 ^ 39) (hl : l < 2 ^ 4)
    (hmat : mat < 2 ^ 21) : voxel.material (voxel.pack m l mat) = mat := by
  rw [pack_eq m l mat hm hl hmat, material_arith]
  omega

theorem morton_pack (m l mat : Nat) (hm : m < 2 ^ 39) (hl : l < 2 ^ 4)
    (hmat : mat < 2 ^ 21) : voxel.morton (voxel.pack m l mat) = m := by
  rw [pack_eq m l mat hm hl hmat, morton_arith]
  omega

theorem pack_lt (m l mat : Nat) : voxel.pack m l mat < 2 ^ 64 := by
  unfold voxel.pack
  exact Nat.mod_lt _ (by norm_num)

theorem mk_eq (m l mat : Nat) (hm : m < 2 ^ 39) (hl : l < 2 ^ 4)
    (hmat : mat < 2 ^ 21) :
    voxel.mk m l mat = m * 2 ^ 25 + l * 2 ^ 21 + mat := by
  unfold voxel.mk
  rw [Nat.mod_eq_of_lt (show l < 2 ^ 8 by omega),
    Nat.mod_eq_of_lt (show mat < 2 ^ 32 by omega)]
  exact pack_eq m l mat hm hl hmat

/-! Bit-level characterization of the Morton codec. -/

theorem spread_zero : spread 0 = 0 := rfl

theorem spread_ne (v : Nat) (h : v ≠ 0) : spread v = v % 2 + 8 * spread (v / 2) := by
  obtain ⟨u, rfl⟩ : ∃ u, v = u + 1 := ⟨v - 1, by omega⟩
  show spreadAux (u + 1) (u + 1) = _
  rw [show spreadAux (u + 1) (u + 1) = (u + 1) % 2 + 8 * spreadAux u ((u + 1) / 2) from by
    simp [spreadAux]]
  have hc : spreadAux u ((u + 1) / 2) = spreadAux ((u + 1) / 2) ((u + 1) / 2) :=
    spreadAux_congr u _ _ (by omega) (le_refl _)
  rw [hc]
  rfl

theorem ux_zero : ux 0 = 0 := rfl

theorem ux_ne (q : Nat) (h : q ≠ 0) : ux q = q % 2 + 2 * ux (q / 8) := by
  obtain ⟨u, rfl⟩ : ∃ u, q = u + 1 := ⟨q - 1, by omega⟩
  show uxAux (u + 1) (u + 1) = _
  rw [show uxAux (u + 1) (u + 1) = (u + 1) % 2 + 2 * uxAux u ((u + 1) / 8) from by
    simp [uxAux]]
  have hc : uxAux u ((u + 1) / 8) = uxAux ((u + 1) / 8) ((u + 1) / 8) :=
    uxAux_congr u _ _ (by omega) (le_refl _)
  rw [hc]
  rfl

theorem uy_zero : uy 0 = 0 := rfl

theorem uy_ne (q : Nat) (h : q ≠ 0) : uy q = q / 2 % 2 + 2 * uy (q / 8) := by
  obtain ⟨u, rfl⟩ : ∃ u, q = u + 1 := ⟨q - 1, by omega⟩
  show uyAux (u + 1) (u + 1) = _
  rw [show uyAux (u + 1) (u + 1) = (u + 1) / 2 % 2 + 2 * uyAux u ((u + 1) / 8) from by
    simp [uyAux]]
  have hc : uyAux u ((u + 1) / 8) = uyAux ((u + 1) / 8) ((u + 1) / 8) :=
    uyAux_congr u _ _ (by omega) (le_refl _)
  rw [hc]
  rfl

theorem uz_zero : uz 0 = 0 := rfl

theorem uz_ne (q : Nat) (h : q ≠ 0) : uz q = q / 4 % 2 + 2 * uz (q / 8) := by
  obtain ⟨u, rfl⟩ : ∃ u, q = u + 1 := ⟨q - 1, by omega⟩
  show uzAux (u + 1) (u + 1) = _
  rw [show uzAux (u + 1) (u + 1) = (u + 1) / 4 % 2 + 2 * uzAux u ((u + 1) / 8) from by
    simp [uzAux]]
  have hc : uzAux u ((u + 1) / 8) = uzAux ((u + 1) / 8) ((u + 1) / 8) :=
    uzAux_congr u _ _ (by omega) (le_refl _)
  rw [hc]
  rfl

theorem testBit_div_eight (q t : Nat) : (q / 8).testBit t = q.testBit (t + 3) := by
  have e : q / 8 = q / 2 / 2 / 2 := by omega
  rw [e, Nat.testBit_div_two, Nat.testBit_div_two, Nat.testBit_div_two]

theorem testBit_spread (v : Nat) : ∀ n : Nat,
    (spread v).testBit n = (decide (n % 3 = 0) && v.testBit (n / 3)) := by
  induction v using Nat.strong_induction_on with
  | _ v ih =>
    intro n
    rcases Nat.eq_zero_or_pos v with h0 | h0
    · simp [h0, spread_zero]
    · have hrec : spread v = 2 ^ 3 * spread (v / 2) + v % 2 := by
        rw [spread_ne v (by omega)]; ring
      rw [hrec, Nat.testBit_mul_pow_two_add _ (show v % 2 < 2 ^ 3 by omega)]
      rcases Nat.lt_or_ge n 3 with h3 | h3
      · interval_cases n
        · simp [Nat.testBit_zero, Nat.mod_mod_of_dvd]
        · rw [if_pos (by omega)]
          have : v % 2 < 2 ^ 1 := by omega
          simp [Nat.testBit_lt_two_pow this]
        · rw [if_pos (by omega)]
          have : v % 2 < 2 ^ 2 := by omega
          simp [Nat.testBit_lt_two_pow this]
      · rw [if_neg (by omega)]
        rw [ih (v / 2) (Nat.div_lt_self h0 (by omega)) (n - 3)]
        have e1 : (n - 3) % 3 = n % 3 := by omega
        have e2 : (n - 3) / 3 + 1 = n / 3 := by omega
        rw [e1, Nat.testBit_div_two, e2]

theorem testBit_morton (x y z : Nat) (n : Nat) :
    (morton x y z).testBit n =
      (if n % 3 = 0 then x.testBit (n / 3)
       else if n % 3 = 1 then y.testBit ((n - 1) / 3)
       else z.testBit ((n - 2) / 3)) := by
  unfold morton interleave
  simp only [Nat.testBit_or, Nat.testBit_shiftLeft, testBit_spread]
  rcases Nat.lt_or_ge n 3 with h3 | h3
  · interval_cases n <;> simp
  · have c0 : decide (n ≥ 0) = true := by simp
    have c1 : decide (n ≥ 1) = true := by simp; omega
    have c2 : decide (n ≥ 2) = true := by simp; omega
    have h30 : n % 3 = 0 ∨ n % 3 = 1 ∨ n % 3 = 2 := by omega
    rcases h30 with hm | hm | hm
    · have d0 : decide ((n - 0) % 3 = 0) = true := by simp; omega
      have d1 : decide ((n - 1) % 3 = 0) = false := by simp; omega
      have d2 : decide ((n - 2) % 3 = 0) = false := by simp; omega
      simp [c0, c1, c2, d0, d1, d2, hm]
    · have d0 : decide ((n - 0) % 3 = 0) = false := by simp; omega
      have d1 : decide ((n - 1) % 3 = 0) = true := by simp; omega
      have d2 : decide ((n - 2) % 3 = 0) = false := by simp; omega
      simp [c0, c1, c2, d0, d1, d2, hm]
    · have d0 : decide ((n - 0) % 3 = 0) = false := by simp; omega
      have d1 : decide ((n - 1) % 3 = 0) = false := by simp; omega
      have d2 : decide ((n - 2) % 3 = 0) = true := by simp; omega
      simp [c0, c1, c2, d0, d1, d2, hm]

theorem testBit_ux (q : Nat) : ∀ k : Nat, (ux q).testBit k = q.testBit (3 * k) := by
  induction q using Nat.strong_induction_on with
  | _ q ih =>
    intro k
    rcases Nat.eq_zero_or_pos q with h0 | h0
    · simp [h0, ux_zero]
    · have hrec : ux q = 2 ^ 1 * ux (q / 8) + q % 2 := by
        rw [ux_ne q (by omega)]; ring
      rw [hrec, Nat.testBit_mul_pow_two_add _ (show q % 2 < 2 ^ 1 by omega)]
      match k with
      | 0 =>
        rw [if_pos (by omega)]
        simp [Nat.testBit_zero, Nat.mod_mod_of_dvd]
      | k + 1 =>
        rw [if_neg (by omega)]
        rw [show k + 1 - 1 = k by omega,
          ih (q / 8) (Nat.div_lt_self h0 (by omega)) k, testBit_div_eight,
          show 3 * k + 3 = 3 * (k + 1) by ring]

theorem testBit_uy (q : Nat) : ∀ k : Nat, (uy q).testBit k = q.testBit (3 * k + 1) := by
  induction q using Nat.strong_induction_on with
  | _ q ih =>
    intro k
    rcases Nat.eq_zero_or_pos q with h0 | h0
    · simp [h0, uy_zero]
    · have hrec : uy q = 2 ^ 1 * uy (q / 8) + q / 2 % 2 := by
        rw [uy_ne q (by omega)]; ring
      rw [hrec, Nat.testBit_mul_pow_two_add _ (show q / 2 % 2 < 2 ^ 1 by omega)]
      match k with
      | 0 =>
        rw [if_pos (by omega)]
        rw [show (3 : Nat) * 0 + 1 = 0 + 1 by ring, ← Nat.testBit_div_two]
        simp [Nat.testBit_zero, Nat.mod_mod_of_dvd]
      | k + 1 =>
        rw [if_neg (by omega)]
        rw [show k + 1 - 1 = k by omega,
          ih (q / 8) (Nat.div_lt_self h0 (by omega)) k, testBit_div_eight,
          show 3 * k + 1 + 3 = 3 * (k + 1) + 1 by ring]

theorem testBit_uz (q : Nat) : ∀ k : Nat, (uz q).testBit k = q.testBit (3 * k + 2) := by
  induction q using Nat.strong_induction_on with
  | _ q ih =>
    intro k
    rcases Nat.eq_zero_or_pos q with h0 | h0
    · simp [h0, uz_zero]
    · have hrec : uz q = 2 ^ 1 * uz (q / 8) + q / 4 % 2 := by
        rw [uz_ne q (by omega)]; ring
      rw [hrec, Nat.testBit_mul_pow_two_add _ (show q / 4 % 2 < 2 ^ 1 by omega)]
      match k with
      | 0 =>
        rw [if_pos (by omega)]
        have e : q / 4 = q / 2 / 2 := by omega
        rw [show (3 : Nat) * 0 + 2 = 0 + 1 + 1 by ring, ← Nat.testBit_div_two,
          ← Nat.testBit_div_two, ← e]
        simp [Nat.testBit_zero, Nat.mod_mod_of_dvd]
      | k + 1 =>
        rw [if_neg (by omega)]
        rw [show k + 1 - 1 = k by omega,
          ih (q / 8) (Nat.div_lt_self h0 (by omega)) k, testBit_div_eight,
          show 3 * k + 2 + 3 = 3 * (k + 1) + 2 by ring]

theorem ux_morton (x y z : Nat) : ux (morton x y z) = x := by
  apply Nat.eq_of_testBit_eq
  intro k
  rw [testBit_ux, testBit_morton]
  rw [if_pos (by omega)]
  congr 1
  omega

theorem uy_morton (x y z : Nat) : uy (morton x y z) = y := by
  apply Nat.eq_of_testBit_eq
  intro k
  rw [testBit_uy, testBit_morton]
  rw [if_neg (by omega), if_pos (by omega)]
  congr 1
  omega

theorem uz_morton (x y z : Nat) : uz (morton x y z) = z := by
  apply Nat.eq_of_testBit_eq
  intro k
  rw [testBit_uz, testBit_morton]
  rw [if_neg (by omega), if_neg (by omega)]
  congr 1
  omega

theorem unmorton_morton (x y z : Nat) : unmorton (morton x y z) = (x, y, z) := by
  unfold unmorton
  rw [ux_morton, uy_morton, uz_morton]

theorem morton_lt_iff (x y z k : Nat) (hx : x < 2 ^ k) (hy : y < 2 ^ k)
    (hz : z < 2 ^ k) : morton x y z < 2 ^ (3 * k) := by
  apply Nat.lt_pow_two_of_testBit
  intro i hi
  rw [testBit_morton]
  rcases Nat.lt_trichotomy (i % 3) 1 with h | h | h
  · rw [if_pos (by omega)]
    exact Nat.testBit_lt_two_pow (lt_of_lt_of_le hx (Nat.pow_le_pow_right (by omega) (by omega)))
  · rw [if_neg (by omega), if_pos (by omega)]
    exact Nat.testBit_lt_two_pow (lt_of_lt_of_le hy (Nat.pow_le_pow_right (by omega) (by omega)))
  · rw [if_neg (by omega), if_neg (by omega)]
    exact Nat.testBit_lt_two_pow (lt_of_lt_of_le hz (Nat.pow_le_pow_right (by omega) (by omega)))

theorem ux_lt (q k : Nat) (h : q < 2 ^ (3 * k)) : ux q < 2 ^ k := by
  apply Nat.lt_pow_two_of_testBit
  intro i hi
  rw [testBit_ux]
  exact Nat.testBit_lt_two_pow (lt_of_lt_of_le h (Nat.pow_le_pow_right (by omega) (by omega)))

theorem uy_lt (q k : Nat) (h : q < 2 ^ (3 * k)) : uy q < 2 ^ k := by
  apply Nat.lt_pow_two_of_testBit
  intro i hi
  rw [testBit_uy]
  exact Nat.testBit_lt_two_pow (lt_of_lt_of_le h (Nat.pow_le_pow_right (by omega) (by omega)))

theorem uz_lt (q k : Nat) (h : q < 2 ^ (3 * k)) : uz q < 2 ^ k := by
  apply Nat.lt_pow_two_of_testBit
  intro i hi
  rw [testBit_uz]
  exact Nat.testBit_lt_two_pow (lt_of_lt_of_le h (Nat.pow_le_pow_right (by omega) (by omega)))

/-! Digit-level recursions of the decoder, used for the child-tiling results. -/

theorem eight_pow (k : Nat) : 8 ^ k = 2 ^ (3 * k) := by
  rw [show (8 : Nat) = 2 ^ 3 from rfl, ← Nat.pow_mul]

theorem ux_eight_mul (u : Nat) : ux (8 * u) = 2 * ux u := by
  rcases Nat.eq_zero_or_pos u with h0 | h0
  · simp [h0, ux_zero]
  · rw [ux_ne (8 * u) (by omega)]
    rw [show 8 * u % 2 = 0 by omega, show 8 * u / 8 = u by omega]
    omega

theorem uy_eight_mul (u : Nat) : uy (8 * u) = 2 * uy u := by
  rcases Nat.eq_zero_or_pos u with h0 | h0
  · simp [h0, uy_zero]
  · rw [uy_ne (8 * u) (by omega)]
    rw [show 8 * u / 2 % 2 = 0 by omega, show 8 * u / 8 = u by omega]
    omega

theorem uz_eight_mul (u : Nat) : uz (8 * u) = 2 * uz u := by
  rcases Nat.eq_zero_or_pos u with h0 | h0
  · simp [h0, uz_zero]
  · rw [uz_ne (8 * u) (by omega)]
    rw [show 8 * u / 4 % 2 = 0 by omega, show 8 * u / 8 = u by omega]
    omega

theorem ux_pow_mul (s t : Nat) : ux (8 ^ s * t) = 2 ^ s * ux t := by
  induction s with
  | zero => simp
  | succ s ih =>
    rw [show 8 ^ (s + 1) * t = 8 * (8 ^ s * t) by ring, ux_eight_mul, ih]
    ring

theorem uy_pow_mul (s t : Nat) : uy (8 ^ s * t) = 2 ^ s * uy t := by
  induction s with
  | zero => simp
  | succ s ih =>
    rw [show 8 ^ (s + 1) * t = 8 * (8 ^ s * t) by ring, uy_eight_mul, ih]
    ring

theorem uz_pow_mul (s t : Nat) : uz (8 ^ s * t) = 2 ^ s * uz t := by
  induction s with
  | zero => simp
  | succ s ih =>
    rw [show 8 ^ (s + 1) * t = 8 * (8 ^ s * t) by ring, uz_eight_mul, ih]
    ring

theorem ux_base (M e : Nat) (he : e < 8) : ux (8 * M + e) = e % 2 + 2 * ux M := by
  rcases Nat.eq_zero_or_pos (8 * M + e) with h0 | h0
  · have hM : M = 0 := by omega
    have hee : e = 0 := by omega
    simp [hM, hee, ux_zero]
  · rw [ux_ne _ (by omega), show (8 * M + e) % 2 = e % 2 by omega,
      show (8 * M + e) / 8 = M by omega]

theorem uy_base (M e : Nat) (he : e < 8) : uy (8 * M + e) = e / 2 % 2 + 2 * uy M := by
  rcases Nat.eq_zero_or_pos (8 * M + e) with h0 | h0
  · have hM : M = 0 := by omega
    have hee : e = 0 := by omega
    simp [hM, hee, uy_zero]
  · rw [uy_ne _ (by omega), show (8 * M + e) / 2 % 2 = e / 2 % 2 by omega,
      show (8 * M + e) / 8 = M by omega]

theorem uz_base (M e : Nat) (he : e < 8) : uz (8 * M + e) = e / 4 % 2 + 2 * uz M := by
  rcases Nat.eq_zero_or_pos (8 * M + e) with h0 | h0
  · have hM : M = 0 := by omega
    have hee : e = 0 := by omega
    simp [hM, hee, uz_zero]
  · rw [uz_ne _ (by omega), show (8 * M + e) / 4 % 2 = e / 4 % 2 by omega,
      show (8 * M + e) / 8 = M by omega]

theorem ux_child_shift (M e s : Nat) (he : e < 8) :
    ux (8 ^ (s + 1) * M + e * 8 ^ s) = ux (8 ^ (s + 1) * M) + e % 2 * 2 ^ s := by
  rw [show 8 ^ (s + 1) * M + e * 8 ^ s = 8 ^ s * (8 * M + e) by ring,
    ux_pow_mul, ux_base M e he, show 8 ^ (s + 1) * M = 8 ^ s * (8 * M) by ring,
    ux_pow_mul, ux_eight_mul]
  ring

theorem uy_child_shift (M e s : Nat) (he : e < 8) :
    uy (8 ^ (s + 1) * M + e * 8 ^ s) = uy (8 ^ (s + 1) * M) + e / 2 % 2 * 2 ^ s := by
  rw [show 8 ^ (s + 1) * M + e * 8 ^ s = 8 ^ s * (8 * M + e) by ring,
    uy_pow_mul, uy_base M e he, show 8 ^ (s + 1) * M = 8 ^ s * (8 * M) by ring,
    uy_pow_mul, uy_eight_mul]
  ring

theorem uz_child_shift (M e s : Nat) (he : e < 8) :
    uz (8 ^ (s + 1) * M + e * 8 ^ s) = uz (8 ^ (s + 1) * M) + e / 4 % 2 * 2 ^ s := by
  rw [show 8 ^ (s + 1) * M + e * 8 ^ s = 8 ^ s * (8 * M + e) by ring,
    uz_pow_mul, uz_base M e he, show 8 ^ (s + 1) * M = 8 ^ s * (8 * M) by ring,
    uz_pow_mul, uz_eight_mul]
  ring

/-! Characterization of `voxel` operations under the packing invariants. -/

theorem coordinates_eq (c : Nat) :
    voxel.coordinates c = unmorton (voxel.morton c) := by
  unfold voxel.coordinates
  have h39 : voxel.morton c < 2 ^ (3 * 13) := morton_lt c
  have hx := ux_lt _ 13 h39
  have hy := uy_lt _ 13 h39
  have hz := uz_lt _ 13 h39
  unfold unmorton
  simp only []
  rw [Nat.mod_eq_of_lt (by
      calc ux (voxel.morton c) < 2 ^ 13 := hx
        _ ≤ 2 ^ 16 := by norm_num),
    Nat.mod_eq_of_lt (by
      calc uy (voxel.morton c) < 2 ^ 13 := hy
        _ ≤ 2 ^ 16 := by norm_num),
    Nat.mod_eq_of_lt (by
      calc uz (voxel.morton c) < 2 ^ 13 := hz
        _ ≤ 2 ^ 16 := by norm_num)]

theorem highAnd_eq (c : Nat) (hc : c < 2 ^ 64) :
    c &&& highmask (locationBits + levelBits) = c / 2 ^ 21 * 2 ^ 21 := by
  have e43 : locationBits + levelBits = 43 := rfl
  rw [e43, highmask_eq 43 (by omega)]
  have eH : 2 ^ 64 - 2 ^ (64 - 43) = 2 ^ 21 * (2 ^ 43 - 1) := by norm_num
  rw [eH]
  apply Nat.eq_of_testBit_eq
  intro i
  rw [Nat.testBit_and]
  rw [show c / 2 ^ 21 * 2 ^ 21 = 2 ^ 21 * (c / 2 ^ 21) by ring]
  rw [Nat.testBit_mul_pow_two, Nat.testBit_mul_pow_two]
  rcases Nat.lt_or_ge i 21 with h21 | h21
  · simp [show ¬(i ≥ 21) by omega]
  · rcases Nat.lt_or_ge i 64 with h64 | h64
    · have e1 : (2 ^ 43 - 1 : Nat).testBit (i - 21) = true := by
        rw [Nat.testBit_two_pow_sub_one]
        simp
        omega
      have e2 : (c / 2 ^ 21).testBit (i - 21) = c.testBit i := by
        rw [← Nat.shiftRight_eq_div_pow, Nat.testBit_shiftRight,
          show 21 + (i - 21) = i by omega]
      have d : decide (i ≥ 21) = true := by simp [h21]
      rw [d, e1, e2]
      simp
    · have e3 : c.testBit i = false :=
        Nat.testBit_lt_two_pow (lt_of_lt_of_le hc (Nat.pow_le_pow_right (by omega) h64))
      have e2 : (c / 2 ^ 21).testBit (i - 21) = c.testBit i := by
        rw [← Nat.shiftRight_eq_div_pow, Nat.testBit_shiftRight,
          show 21 + (i - 21) = i by omega]
      have d : decide (i ≥ 21) = true := by simp [h21]
      rw [d, e2, e3]
      simp

theorem withMaterial_eq (c mat : Nat) (hc : c < 2 ^ 64) (hmat : mat < 2 ^ 21) :
    voxel.withMaterial c mat = c / 2 ^ 21 * 2 ^ 21 + mat := by
  unfold voxel.withMaterial
  rw [Nat.mod_eq_of_lt (show mat < 2 ^ 32 by omega), highAnd_eq c hc,
    show c / 2 ^ 21 * 2 ^ 21 = 2 ^ 21 * (c / 2 ^ 21) by ring,
    ← Nat.mul_add_lt_is_or hmat, Nat.mul_comm]

theorem level_withMaterial (c mat : Nat) (hc : c < 2 ^ 64) (hmat : mat < 2 ^ 21) :
    voxel.level (voxel.withMaterial c mat) = voxel.level c := by
  rw [withMaterial_eq c mat hc hmat, level_arith, level_arith]
  omega

theorem material_withMaterial (c mat : Nat) (hc : c < 2 ^ 64) (hmat : mat < 2 ^ 21) :
    voxel.material (voxel.withMaterial c mat) = mat := by
  rw [withMaterial_eq c mat hc hmat, material_arith]
  omega

theorem morton_withMaterial (c mat : Nat) (hc : c < 2 ^ 64) (hmat : mat < 2 ^ 21) :
    voxel.morton (voxel.withMaterial c mat) = voxel.morton c := by
  rw [withMaterial_eq c mat hc hmat, morton_arith, morton_arith]
  omega

theorem withMaterial_lt (c mat : Nat) (hc : c < 2 ^ 64) (hmat : mat < 2 ^ 21) :
    voxel.withMaterial c mat < 2 ^ 64 := by
  rw [withMaterial_eq c mat hc hmat]
  omega

theorem child_spec (v i : Nat) (hl : voxel.level v < 13) (hi : i < 8)
    (hm : voxel.morton v + 8 ^ (13 - voxel.level v) ≤ 8 ^ 13) :
    voxel.level (voxel.child v i) = voxel.level v + 1 ∧
    voxel.material (voxel.child v i) = voxel.material v ∧
    voxel.morton (voxel.child v i) = voxel.morton v + i * 8 ^ (12 - voxel.level v) ∧
    voxel.child v i < 2 ^ 64 := by
  have hmatlt := material_lt v
  have h8 : 8 ^ (13 - voxel.level v) = 8 ^ (12 - voxel.level v) * 8 := by
    rw [show 13 - voxel.level v = (12 - voxel.level v) + 1 by omega, pow_succ]
  have hmul : i * 8 ^ (12 - voxel.level v) ≤ 7 * 8 ^ (12 - voxel.level v) :=
    Nat.mul_le_mul_right _ (by omega)
  have hsum : voxel.morton v + i * 8 ^ (12 - voxel.level v) < 2 ^ 39 := by
    have h13 : (8 : Nat) ^ 13 = 2 ^ 39 := by norm_num
    have hepos : 0 < 8 ^ (12 - voxel.level v) := Nat.pos_pow_of_pos _ (by omega)
    omega
  have hchild : voxel.child v i =
      (voxel.morton v + i * 8 ^ (12 - voxel.level v)) * 2 ^ 25 +
      (voxel.level v + 1) * 2 ^ 21 + voxel.material v := by
    unfold voxel.child voxel.inc
    rw [height_eq v (by omega)]
    have e1 : (13 - voxel.level v - 1) * 3 = 3 * (12 - voxel.level v) := by omega
    rw [e1, Nat.shiftLeft_eq, Nat.one_mul, ← eight_pow]
    have hb : 8 ^ (12 - voxel.level v) < 2 ^ 64 := by
      calc 8 ^ (12 - voxel.level v) ≤ 8 ^ 12 := Nat.pow_le_pow_right (by omega) (by omega)
        _ < 2 ^ 64 := by norm_num
    rw [Nat.mod_eq_of_lt hb,
      Nat.mod_eq_of_lt (show voxel.morton v + i * 8 ^ (12 - voxel.level v) < 2 ^ 64 from
        lt_trans hsum (by norm_num))]
    exact mk_eq _ _ _ hsum (by omega) hmatlt
  refine ⟨?_, ?_, ?_, ?_⟩
  · rw [hchild, level_arith]
    omega
  · rw [hchild, material_arith]
    omega
  · rw [hchild, morton_arith]
    omega
  · rw [hchild]
    have hl16 : voxel.level v + 1 < 16 := by omega
    omega

/-! Constructor field lemmas that hold for arbitrary Morton words: the level
and material bits of a packed word never depend on the (possibly wrapped)
Morton argument, because `morton << 25` only occupies bits 25 and above. -/

theorem level_mk (m l mat : Nat) (hl : l < 16) (hmat : mat < 2 ^ 21) :
    voxel.level (voxel.mk m l mat) = l := by
  unfold voxel.mk voxel.pack
  rw [level_arith]
  have e25 : materialBits + levelBits = 25 := rfl
  have e21 : materialBits = 21 := rfl
  rw [e25, e21, Nat.mod_eq_of_lt (show l < 2 ^ 8 by omega),
    Nat.mod_eq_of_lt (show mat < 2 ^ 32 by omega)]
  apply Nat.eq_of_testBit_eq
  intro j
  rcases Nat.lt_or_ge j 4 with hj | hj
  · have hdiv : ∀ x : Nat, (x / 2 ^ 21 % 2 ^ 4).testBit j = x.testBit (21 + j) := by
      intro x
      rw [← Nat.shiftRight_eq_div_pow, Nat.testBit_mod_two_pow, Nat.testBit_shiftRight]
      simp [hj]
    rw [hdiv, Nat.testBit_mod_two_pow]
    have h64 : 21 + j < 64 := by omega
    rw [Nat.testBit_or, Nat.testBit_or, Nat.testBit_shiftLeft, Nat.testBit_shiftLeft]
    have hm0 : decide (21 + j ≥ 25) = false := by simp; omega
    have hmat0 : mat.testBit (21 + j) = false :=
      Nat.testBit_lt_two_pow (lt_of_lt_of_le hmat (Nat.pow_le_pow_right (by omega) (by omega)))
    have hl0 : decide (21 + j ≥ 21) = true := by simp
    rw [hm0, hmat0, hl0, show 21 + j - 21 = j by omega]
    simp [h64]
  · have h1 : l.testBit j = false :=
      Nat.testBit_lt_two_pow (lt_of_lt_of_le hl (by
        calc (16 : Nat) = 2 ^ 4 := by norm_num
          _ ≤ 2 ^ j := Nat.pow_le_pow_right (by omega) hj))
    have h2 : ∀ x : Nat, (x / 2 ^ 21 % 2 ^ 4).testBit j = false := by
      intro x
      apply Nat.testBit_lt_two_pow
      exact lt_of_lt_of_le (Nat.mod_lt _ (by norm_num)) (Nat.pow_le_pow_right (by omega) hj)
    rw [h1, h2]

theorem material_mk (m l mat : Nat) (hmat : mat < 2 ^ 21) :
    voxel.material (voxel.mk m l mat) = mat := by
  unfold voxel.mk voxel.pack
  rw [material_arith]
  have e25 : materialBits + levelBits = 25 := rfl
  have e21 : materialBits = 21 := rfl
  rw [e25, e21, Nat.mod_eq_of_lt (show mat < 2 ^ 32 by omega)]
  apply Nat.eq_of_testBit_eq
  intro j
  rcases Nat.lt_or_ge j 21 with hj | hj
  · rw [Nat.testBit_mod_two_pow, Nat.testBit_mod_two_pow]
    have h64 : j < 64 := by omega
    rw [Nat.testBit_or, Nat.testBit_or, Nat.testBit_shiftLeft, Nat.testBit_shiftLeft]
    have hm0 : decide (j ≥ 25) = false := by simp; omega
    have hl0 : decide (j ≥ 21) = false := by simp; omega
    rw [hm0, hl0]
    simp [hj, h64]
  · have h1 : mat.testBit j = false :=
      Nat.testBit_lt_two_pow (lt_of_lt_of_le hmat (Nat.pow_le_pow_right (by omega) hj))
    have h2 : ∀ x : Nat, (x % 2 ^ 21).testBit j = false := by
      intro x
      apply Nat.testBit_lt_two_pow
      exact lt_of_lt_of_le (Nat.mod_lt _ (by norm_num)) (Nat.pow_le_pow_right (by omega) hj)
    rw [h1, h2]

theorem children_explicit (c : Nat) :
    voxel.children c =
      [voxel.child c 0, voxel.child c 1, voxel.child c 2, voxel.child c 3,
       voxel.child c 4, voxel.child c 5, voxel.child c 6, voxel.child c 7] := by
  unfold voxel.children
  rfl

theorem buildStep_measure (split : Nat → Nat) (data : List Nat) (i : Nat)
    (h : i < data.length) :
    loopMeasure (buildStep split data i).1 (buildStep split data i).2 <
      loopMeasure data i := by
  have hv : data.getD i 0 = data[i] := by
    simp [List.getD_eq_getElem?_getD, List.getElem?_eq_getElem h]
  have hcons : data.drop i = data[i] :: data.drop (i + 1) :=
    List.drop_eq_getElem_cons h
  unfold buildStep
  simp only [hv]
  by_cases hc : voxel.level data[i] < maxLevel ∧ split data[i] % 2 ^ 32 = unknownMaterial
  · rw [if_pos hc]
    unfold loopMeasure
    have hlen : i ≤ (data.set i (voxel.child data[i] 0)).length := by
      rw [List.length_set]; omega
    rw [List.drop_append_of_le_length hlen]
    have hset : (data.set i (voxel.child data[i] 0)).drop i =
        voxel.child data[i] 0 :: data.drop (i + 1) := by
      rw [List.drop_set, if_neg (by omega), Nat.sub_self, hcons, List.set_cons_zero]
    rw [hset, hcons]
    have hl13 : voxel.level data[i] < 13 := hc.1
    have hmat := material_lt data[i]
    have hwc : ∀ j : Nat, cellWeight (voxel.child data[i] j) =
        2 * 8 ^ (12 - voxel.level data[i]) - 1 := by
      intro j
      unfold cellWeight voxel.child
      rw [level_mk _ _ _ (by omega) hmat,
        show maxLevel - (voxel.level data[i] + 1) = 12 - voxel.level data[i] by
          unfold maxLevel; omega]
    have hw : cellWeight data[i] = 2 * (8 ^ (12 - voxel.level data[i]) * 8) - 1 := by
      unfold cellWeight
      rw [show maxLevel - voxel.level data[i] = (12 - voxel.level data[i]) + 1 by
        unfold maxLevel; omega, pow_succ]
    rw [children_explicit]
    simp only [List.drop, List.map_append, List.map_cons, List.sum_append, List.sum_cons,
      List.map_nil, List.sum_nil]
    rw [hw, hwc 1, hwc 2, hwc 3, hwc 4, hwc 5, hwc 6, hwc 7, hwc 0]
    have hpos : 0 < 8 ^ (12 - voxel.level data[i]) := Nat.pos_pow_of_pos _ (by omega)
    omega
  · rw [if_neg hc]
    unfold loopMeasure
    have hset : (data.set i (voxel.withMaterial data[i] (split data[i] % 2 ^ 32))).drop (i + 1) =
        data.drop (i + 1) := by
      rw [List.drop_set, if_pos (by omega)]
    rw [hset, hcons]
    simp only [List.map_cons, List.sum_cons]
    have hpos : 0 < cellWeight data[i] := by
      unfold cellWeight
      have : 0 < 8 ^ (maxLevel - voxel.level data[i]) := Nat.pos_pow_of_pos _ (by omega)
      omega
    omega

theorem buildLoopF_congr (split : Nat → Nat) : ∀ f1 f2 data i,
    loopMeasure data i < f1 → loopMeasure data i < f2 →
    buildLoopF split f1 data i = buildLoopF split f2 data i := by
  intro f1
  induction f1 with
  | zero =>
    intro f2 data i h1 h2
    omega
  | succ a ih =>
    intro f2 data i h1 h2
    cases f2 with
    | zero => omega
    | succ b =>
      by_cases hlt : i < data.length
      · have hm := buildStep_measure split data i hlt
        simp only [buildLoopF, if_pos hlt]
        exact ih b _ _ (by omega) (by omega)
      · simp only [buildLoopF, if_neg hlt]

theorem buildLoop_eq (split : Nat → Nat) (data : List Nat) (i : Nat) :
    buildLoop split data i =
      if i < data.length then
        buildLoop split (buildStep split data i).1 (buildStep split data i).2
      else data := by
  by_cases h : i < data.length
  · rw [if_pos h]
    show buildLoopF split (loopMeasure data i + 1) data i = _
    have hm := buildStep_measure split data i h
    calc buildLoopF split (loopMeasure data i + 1) data i
        = buildLoopF split (loopMeasure data i)
            (buildStep split data i).1 (buildStep split data i).2 := by
          simp only [buildLoopF, if_pos h]
      _ = buildLoop split (buildStep split data i).1 (buildStep split data i).2 :=
          buildLoopF_congr split _ _ _ _ (by omega) (by omega)
  · rw [if_neg h]
    show buildLoopF split (loopMeasure data i + 1) data i = data
    simp only [buildLoopF, if_neg h]

theorem Disj.symm {a b : Nat} (h : Disj a b) : Disj b a := Or.symm h

theorem Disj.ne {a b : Nat} (h : Disj a b) : a ≠ b := by
  rintro rfl
  have hpos : 0 < 8 ^ (13 - voxel.level a) := Nat.pos_pow_of_pos _ (by omega)
  unfold Disj at h
  omega

/-- Replacing one element of a pairwise-related list by an element that
inherits all its relations preserves pairwise-relatedness. -/
theorem pairwise_set_rel {α : Type} {R : α → α → Prop} :
    ∀ (l : List α) (i : Nat) (a : α) (h : i < l.length),
      List.Pairwise R l →
      (∀ b, R l[i] b → R a b) →
      (∀ b, R b l[i] → R b a) →
      List.Pairwise R (l.set i a) := by
  intro l
  induction l with
  | nil =>
    intro i a h
    simp at h
  | cons x xs ih =>
    intro i a h hp h1 h2
    rcases List.pairwise_cons.mp hp with ⟨hx, hxs⟩
    cases i with
    | zero =>
      rw [List.set_cons_zero]
      exact List.pairwise_cons.mpr ⟨fun b hb => h1 b (hx b hb), hxs⟩
    | succ k =>
      rw [List.set_cons_succ]
      have hk : k < xs.length := by simpa using h
      refine List.pairwise_cons.mpr ⟨?_, ?_⟩
      · intro b hb
        rcases List.mem_or_eq_of_mem_set hb with hmem | rfl
        · exact hx b hmem
        · exact h2 x (hx _ (List.getElem_mem hk))
      · exact ih k a hk hxs (fun b hb => h1 b hb) (fun b hb => h2 b hb)

/-- A slot whose Morton interval is contained in that of `v` is disjoint from
everything `v` is disjoint from. -/
theorem disj_of_subset {v c b : Nat}
    (h1 : voxel.morton v ≤ voxel.morton c)
    (h2 : voxel.morton c + 8 ^ (13 - voxel.level c) ≤
          voxel.morton v + 8 ^ (13 - voxel.level v))
    (h : Disj v b) : Disj c b := by
  unfold Disj at *
  omega

/-- Children occupy disjoint consecutive Morton subintervals of the parent. -/
theorem child_disj (v : Nat) (hl : voxel.level v < 13)
    (hm : voxel.morton v + 8 ^ (13 - voxel.level v) ≤ 8 ^ 13)
    (i j : Nat) (hi : i < 8) (hj : j < 8) (hij : i < j) :
    Disj (voxel.child v i) (voxel.child v j) := by
  obtain ⟨hlevi, _, hmori, _⟩ := child_spec v i hl hi hm
  obtain ⟨hlevj, _, hmorj, _⟩ := child_spec v j hl hj hm
  left
  rw [hmori, hmorj, hlevi]
  have e : 13 - (voxel.level v + 1) = 12 - voxel.level v := by omega
  rw [e]
  have hstep : (i + 1) * 8 ^ (12 - voxel.level v) ≤ j * 8 ^ (12 - voxel.level v) :=
    Nat.mul_le_mul_right _ (by omega)
  have : i * 8 ^ (12 - voxel.level v) + 8 ^ (12 - voxel.level v) =
      (i + 1) * 8 ^ (12 - voxel.level v) := by ring
  omega

/-- Each child's Morton interval is contained in the parent's. -/
theorem child_subset (v : Nat) (hl : voxel.level v < 13)
    (hm : voxel.morton v + 8 ^ (13 - voxel.level v) ≤ 8 ^ 13)
    (i : Nat) (hi : i < 8) :
    voxel.morton v ≤ voxel.morton (voxel.child v i) ∧
    voxel.morton (voxel.child v i) + 8 ^ (13 - voxel.level (voxel.child v i)) ≤
      voxel.morton v + 8 ^ (13 - voxel.level v) := by
  obtain ⟨hlev, _, hmor, _⟩ := child_spec v i hl hi hm
  rw [hlev, hmor]
  have e : 13 - (voxel.level v + 1) = 12 - voxel.level v := by omega
  rw [e]
  constructor
  · omega
  · have hstep : (i + 1) * 8 ^ (12 - voxel.level v) ≤ 8 * 8 ^ (12 - voxel.level v) :=
      Nat.mul_le_mul_right _ (by omega)
    have e2 : 8 * 8 ^ (12 - voxel.level v) = 8 ^ (13 - voxel.level v) := by
      rw [show 13 - voxel.level v = (12 - voxel.level v) + 1 by omega, pow_succ]
      ring
    have : i * 8 ^ (12 - voxel.level v) + 8 ^ (12 - voxel.level v) =
        (i + 1) * 8 ^ (12 - voxel.level v) := by ring
    omega

/-- Children of a valid non-leaf slot are valid. -/
theorem child_valid (v : Nat) (hv : ValidVoxel v) (hl : voxel.level v < 13)
    (i : Nat) (hi : i < 8) : ValidVoxel (voxel.child v i) := by
  obtain ⟨hlev13, hc64, hm⟩ := hv
  obtain ⟨hlev, _, hmor, hlt⟩ := child_spec v i hl hi hm
  obtain ⟨_, hsub⟩ := child_subset v hl hm i hi
  exact ⟨by omega, hlt, by omega⟩

theorem mem_children_tail {x w : Nat} (hw : w ∈ (voxel.children x).drop 1) :
    ∃ j, 1 ≤ j ∧ j < 8 ∧ w = voxel.child x j := by
  rw [children_explicit] at hw
  simp only [List.drop, List.mem_cons, List.not_mem_nil, or_false] at hw
  rcases hw with rfl | rfl | rfl | rfl | rfl | rfl | rfl
  · exact ⟨1, by omega, by omega, rfl⟩
  · exact ⟨2, by omega, by omega, rfl⟩
  · exact ⟨3, by omega, by omega, rfl⟩
  · exact ⟨4, by omega, by omega, rfl⟩
  · exact ⟨5, by omega, by omega, rfl⟩
  · exact ⟨6, by omega, by omega, rfl⟩
  · exact ⟨7, by omega, by omega, rfl⟩

theorem children_tail_pairwise (x : Nat) (hl : voxel.level x < 13)
    (hm : voxel.morton x + 8 ^ (13 - voxel.level x) ≤ 8 ^ 13) :
    List.Pairwise Disj ((voxel.children x).drop 1) := by
  have H : ∀ a b : Nat, a < b → b < 8 → Disj (voxel.child x a) (voxel.child x b) :=
    fun a b hab hb => child_disj x hl hm a b (by omega) hb hab
  rw [children_explicit]
  simp only [List.drop]
  apply List.pairwise_iff_getElem.mpr
  intro a b ha hb hab
  simp only [List.length_cons, List.length_nil] at ha hb
  interval_cases a <;> interval_cases b <;>
    simp only [List.getElem_cons_zero, List.getElem_cons_succ] <;>
    first
      | omega
      | exact H _ _ (by omega) (by omega)

theorem buildStep_inv (split : Nat → Nat)
    (hrange : ∀ v, split v ≤ maxMaterial)
    (hdecided : ∀ v, voxel.level v = maxLevel → split v ≠ unknownMaterial)
    (data : List Nat) (i : Nat) (h : i < data.length)
    (hval : ∀ v ∈ data, ValidVoxel v)
    (hdisj : List.Pairwise Disj data)
    (hpre : ∀ j, j < i → ∀ hj2 : j < data.length,
      voxel.material (data.get ⟨j, hj2⟩) ≠ unknownMaterial) :
    (∀ v ∈ (buildStep split data i).1, ValidVoxel v) ∧
    List.Pairwise Disj (buildStep split data i).1 ∧
    (∀ j, j < (buildStep split data i).2 → ∀ hj2 : j < (buildStep split data i).1.length,
      voxel.material ((buildStep split data i).1.get ⟨j, hj2⟩) ≠ unknownMaterial) := by
  have hget : data.getD i 0 = data[i] := by
    simp [List.getD_eq_getElem?_getD, List.getElem?_eq_getElem h]
  have hvval : ValidVoxel data[i] := hval _ (List.getElem_mem h)
  obtain ⟨hlev13, hc64, hmint⟩ := hvval
  have hmax13 : maxLevel = 13 := rfl
  by_cases hc : voxel.level data[i] < maxLevel ∧ split data[i] % 2 ^ 32 = unknownMaterial
  · have hEq : buildStep split data i =
        (data.set i (voxel.child data[i] 0) ++ (voxel.children data[i]).drop 1, i) := by
      unfold buildStep
      simp only [hget]
      rw [if_pos hc]
    rw [hEq]
    simp only []
    obtain ⟨hl13, hm0⟩ := hc
    rw [hmax13] at hl13
    have hcsub := fun (j : Nat) (hj : j < 8) => child_subset data[i] hl13 hmint j hj
    have hcval := fun (j : Nat) (hj : j < 8) =>
      child_valid data[i] ⟨hlev13, hc64, hmint⟩ hl13 j hj
    refine ⟨?_, ?_, ?_⟩
    · intro w hw
      rcases List.mem_append.mp hw with hw1 | hw2
      · rcases List.mem_or_eq_of_mem_set hw1 with hmem | rfl
        · exact hval w hmem
        · exact hcval 0 (by omega)
      · obtain ⟨j, _, hj8, rfl⟩ := mem_children_tail hw2
        exact hcval j hj8
    · rw [List.pairwise_append]
      refine ⟨?_, ?_, ?_⟩
      · exact pairwise_set_rel data i _ h hdisj
          (fun b hb => disj_of_subset (hcsub 0 (by omega)).1 (hcsub 0 (by omega)).2 hb)
          (fun b hb =>
            (disj_of_subset (hcsub 0 (by omega)).1 (hcsub 0 (by omega)).2 hb.symm).symm)
      · exact children_tail_pairwise data[i] hl13 hmint
      · intro a ha b hb
        obtain ⟨j, hj1, hj8, rfl⟩ := mem_children_tail hb
        obtain ⟨k, hk, hEq⟩ := List.mem_iff_getElem.mp ha
        rw [List.getElem_set] at hEq
        by_cases hik : i = k
        · rw [if_pos hik] at hEq
          subst hEq
          exact child_disj data[i] hl13 hmint 0 j (by omega) hj8 (by omega)
        · rw [if_neg hik] at hEq
          subst hEq
          have hk' : k < data.length := by
            simpa using hk
          have hdk : Disj data[i] (data.get ⟨k, hk'⟩) := by
            rcases Nat.lt_or_ge k i with hki | hki
            · exact ((List.pairwise_iff_getElem.mp hdisj) k i hk' h hki).symm
            · exact (List.pairwise_iff_getElem.mp hdisj) i k h hk' (by omega)
          exact (disj_of_subset (hcsub j hj8).1 (hcsub j hj8).2 hdk).symm
    · intro j hj hj2
      have hjset : j < (data.set i (voxel.child data[i] 0)).length := by
        rw [List.length_set]
        omega
      have hjd : j < data.length := by omega
      have e1 : ((data.set i (voxel.child data[i] 0) ++
          (voxel.children data[i]).drop 1).get ⟨j, hj2⟩) = data.get ⟨j, hjd⟩ := by
        show (data.set i (voxel.child data[i] 0) ++
          (voxel.children data[i]).drop 1)[j] = data[j]
        rw [List.getElem_append_left hjset, List.getElem_set, if_neg (by omega)]
      rw [e1]
      exact hpre j hj hjd
  · have hEq : buildStep split data i =
        (data.set i (voxel.withMaterial data[i] (split data[i] % 2 ^ 32)), i + 1) := by
      unfold buildStep
      simp only [hget]
      rw [if_neg hc]
    rw [hEq]
    simp only []
    have hmat21 : split data[i] % 2 ^ 32 < 2 ^ 21 := by
      have hr := hrange data[i]
      have : split data[i] % 2 ^ 32 = split data[i] := Nat.mod_eq_of_lt (by
        unfold maxMaterial at hr
        omega)
      unfold maxMaterial at hr
      omega
    have hWl := level_withMaterial data[i] _ hc64 hmat21
    have hWmor := morton_withMaterial data[i] _ hc64 hmat21
    have hWmat := material_withMaterial data[i] _ hc64 hmat21
    have hWlt := withMaterial_lt data[i] _ hc64 hmat21
    refine ⟨?_, ?_, ?_⟩
    · intro w hw
      rcases List.mem_or_eq_of_mem_set hw with hmem | rfl
      · exact hval w hmem
      · exact ⟨by omega, hWlt, by rw [hWl, hWmor]; exact hmint⟩
    · refine pairwise_set_rel data i _ h hdisj ?_ ?_
      · intro b hb
        unfold Disj at hb ⊢
        rw [hWl, hWmor]
        exact hb
      · intro b hb
        unfold Disj at hb ⊢
        rw [hWl, hWmor]
        exact hb
    · intro j hj hj2
      have hjd : j < data.length := by
        rw [List.length_set] at hj2
        exact hj2
      rcases Nat.lt_or_ge j i with hji | hji
      · have e1 : (data.set i (voxel.withMaterial data[i]
            (split data[i] % 2 ^ 32))).get ⟨j, hj2⟩ = data.get ⟨j, hjd⟩ := by
          show (data.set i (voxel.withMaterial data[i] (split data[i] % 2 ^ 32)))[j] = data[j]
          rw [List.getElem_set, if_neg (by omega)]
        rw [e1]
        exact hpre j hji hjd
      · have hjeq : i = j := by omega
        have e1 : (data.set i (voxel.withMaterial data[i]
            (split data[i] % 2 ^ 32))).get ⟨j, hj2⟩ =
            voxel.withMaterial data[i] (split data[i] % 2 ^ 32) := by
          show (data.set i (voxel.withMaterial data[i] (split data[i] % 2 ^ 32)))[j] = _
          rw [List.getElem_set, if_pos hjeq]
        rw [e1, hWmat]
        intro habs
        have hns : ¬(voxel.level data[i] < maxLevel ∧
            split data[i] % 2 ^ 32 = unknownMaterial) := hc
        have hl13 : voxel.level data[i] = 13 := by
          rcases Nat.lt_or_ge (voxel.level data[i]) 13 with hlt | hge
          · exfalso
            exact hns ⟨by omega, habs⟩
          · omega
        have := hdecided data[i] (by rw [hmax13]; exact hl13)
        have hr := hrange data[i]
        unfold maxMaterial at hr
        unfold unknownMaterial at habs this
        omega

theorem buildLoopF_inv (split : Nat → Nat)
    (hrange : ∀ v, split v ≤ maxMaterial)
    (hdecided : ∀ v, voxel.level v = maxLevel → split v ≠ unknownMaterial) :
    ∀ fuel data i, loopMeasure data i < fuel →
      (∀ v ∈ data, ValidVoxel v) →
      List.Pairwise Disj data →
      (∀ j, j < i → ∀ hj2 : j < data.length,
        voxel.material (data.get ⟨j, hj2⟩) ≠ unknownMaterial) →
      List.Pairwise Disj (buildLoopF split fuel data i) ∧
      (∀ v ∈ buildLoopF split fuel data i,
        voxel.material v ≠ unknownMaterial) := by
  intro fuel
  induction fuel with
  | zero =>
    intro data i hf
    omega
  | succ f ih =>
    intro data i hf hval hdisj hpre
    by_cases hlt : i < data.length
    · simp only [buildLoopF, if_pos hlt]
      obtain ⟨hval2, hdisj2, hpre2⟩ :=
        buildStep_inv split hrange hdecided data i hlt hval hdisj hpre
      have hm := buildStep_measure split data i hlt
      exact ih _ _ (by omega) hval2 hdisj2 hpre2
    · simp only [buildLoopF, if_neg hlt]
      refine ⟨hdisj, ?_⟩
      intro w hw
      obtain ⟨k, hk, rfl⟩ := List.mem_iff_getElem.mp hw
      have := hpre k (by omega) hk
      simpa using this

/-- The seed buffer satisfies the builder invariants. -/
theorem buildSeed_inv :
    (∀ v ∈ buildSeed, ValidVoxel v) ∧ List.Pairwise Disj buildSeed := by
  constructor
  · intro v hv
    have hv0 : v = 0 := by simpa [buildSeed] using hv
    subst hv0
    refine ⟨by decide, by norm_num, ?_⟩
    have e1 : voxel.level 0 = 0 := by decide
    have e2 : voxel.morton 0 = 0 := by decide
    rw [e1, e2]
    omega
  · simp [buildSeed]

/-- The unsorted loop output is pairwise Morton-disjoint and fully decided,
for any split function that returns in-range materials and decides every
voxel of the deepest level. -/
theorem buildLoop_out (split : Nat → Nat)
    (hrange : ∀ v, split v ≤ maxMaterial)
    (hdecided : ∀ v, voxel.level v = maxLevel → split v ≠ unknownMaterial) :
    List.Pairwise Disj (buildLoop split buildSeed 0) ∧
    (∀ v ∈ buildLoop split buildSeed 0,
      voxel.material v ≠ unknownMaterial) := by
  obtain ⟨hval, hdisj⟩ := buildSeed_inv
  exact buildLoopF_inv split hrange hdecided _ buildSeed 0 (by omega) hval hdisj
    (by omega)

theorem coordinates_lt (c : Nat) (i : Nat) :
    getCoord (voxel.coordinates c) i < 2 ^ 13 := by
  rw [coordinates_eq]
  have h39 : voxel.morton c < 2 ^ (3 * 13) := morton_lt c
  unfold getCoord unmorton
  split_ifs
  · exact ux_lt _ 13 h39
  · exact uy_lt _ 13 h39
  · exact uz_lt _ 13 h39

theorem size_le (c : Nat) (h : voxel.level c ≤ 13) : voxel.size c ≤ 2 ^ 13 := by
  rw [size_eq c h]
  exact Nat.pow_le_pow_right (by omega) (by omega)

theorem children_getD (x : Nat) (i : Nat) (hi : i < 8) :
    (voxel.children x).getD i 0 = voxel.child x i := by
  rw [children_explicit]
  interval_cases i <;> rfl

/-- Geometry of the children of a well-formed voxel: each child cube has half
the edge and sits at the corner of the parent selected by the three bits of
its index. -/
theorem child_geometry (v : Nat) (hl : voxel.level v < 13)
    (halign : voxel.morton v % 8 ^ (13 - voxel.level v) = 0)
    (hbound : voxel.morton v + 8 ^ (13 - voxel.level v) ≤ 8 ^ 13)
    (i : Nat) (hi : i < 8) :
    voxel.coordinates (voxel.child v i) =
      ((voxel.coordinates v).1 + i % 2 * 2 ^ (12 - voxel.level v),
       (voxel.coordinates v).2.1 + i / 2 % 2 * 2 ^ (12 - voxel.level v),
       (voxel.coordinates v).2.2 + i / 4 % 2 * 2 ^ (12 - voxel.level v)) ∧
    voxel.size (voxel.child v i) = 2 ^ (12 - voxel.level v) ∧
    voxel.size v = 2 ^ (12 - voxel.level v) * 2 := by
  obtain ⟨hlev, hmat, hmor, hlt⟩ := child_spec v i hl hi hbound
  have h13 : 13 - voxel.level v = (12 - voxel.level v) + 1 := by omega
  have hdvd : 8 ^ ((12 - voxel.level v) + 1) ∣ voxel.morton v := by
    rw [← h13]
    exact Nat.dvd_of_mod_eq_zero halign
  obtain ⟨M, hM⟩ := hdvd
  refine ⟨?_, ?_, ?_⟩
  · rw [coordinates_eq, coordinates_eq, hmor, hM]
    unfold unmorton
    simp only [Prod.mk.injEq]
    have he4 : i / 4 % 2 = i / 4 := by omega
    refine ⟨?_, ?_, ?_⟩
    · rw [ux_child_shift M i _ hi]
    · rw [uy_child_shift M i _ hi]
    · rw [uz_child_shift M i _ hi, he4]
  · rw [size_eq _ (by omega), hlev]
    congr 1
    omega
  · rw [size_eq _ (by omega), h13, pow_succ]

theorem flatMap_const_length {α β : Type} (k : Nat) (f : α → List β)
    (hf : ∀ a, (f a).length = k) :
    ∀ l : List α, (l.flatMap f).length = k * l.length := by
  intro l
  induction l with
  | nil => simp
  | cons a t ih =>
    simp only [List.flatMap_cons, List.length_append, ih, hf a, List.length_cons]
    ring

/-! The claims. -/

/-- C8: for every query point `p` and CSG nodes `a`, `b`, the signed distance
of the intersection node equals `max(a.distance(p), -b.distance(p))`, with the
negation applied to the right operand (`intersection_t::distance`, csg.cpp). -/
theorem claim_C8 (a b : csg) (p : ℝ × ℝ × ℝ) :
    csgDistance (csg.intersectionOp a b) p =
      max (csgDistance a p) (-csgDistance b p) := rfl

/-- C3: for every `(x, y, z)` with all components in `[0, 2^21)`, decoding the
Morton code gives the components back: `unmorton (morton x y z) = (x, y, z)`.
(The codec is modelled from the spec, see the `spread`/`ux` definitions; the
round trip in fact holds for all naturals.) -/
theorem claim_C3 (x y z : Nat) (hx : x < 2 ^ 21) (hy : y < 2 ^ 21)
    (hz : z < 2 ^ 21) : unmorton (morton x y z) = (x, y, z) :=
  unmorton_morton x y z

/-- Witness for C3 at the concrete input `(3, 5, 7)`. -/
theorem claim_C3_witness :
    (3 : Nat) < 2 ^ 21 ∧ (5 : Nat) < 2 ^ 21 ∧ (7 : Nat) < 2 ^ 21 ∧
    unmorton (morton 3 5 7) = (3, 5, 7) :=
  ⟨by norm_num, by norm_num, by norm_num,
   claim_C3 3 5 7 (by norm_num) (by norm_num) (by norm_num)⟩

/-- C10: the void voxel that `voxel::neighbor` returns when the step would
leave the coordinate space (a negative face whose selected coordinate is
already 0 — the only case in which the guard fails) is exactly the
default-constructed voxel: code 0, hence level 0 and material `UNKNOWN = 0`
(not `VOID = 1`), and it is least in the `code()` ordering. -/
theorem claim_C10 (c : Nat) (d : Face) (hneg : addSize d = false)
    (h0 : getCoord (voxel.coordinates c) (faceIndex d) = 0) :
    voxel.neighbor c d = voxelDefault ∧
    voxel.level voxelDefault = 0 ∧
    voxel.material voxelDefault = unknownMaterial ∧
    unknownMaterial ≠ voidMaterial ∧
    (∀ w : Nat, voxelDefault ≤ w) := by
  refine ⟨?_, by decide, by decide, by decide, fun w => Nat.zero_le w⟩
  simp only [voxel.neighbor, hneg, h0, Bool.false_and, Bool.not_false, Bool.true_and,
    Bool.false_or, Nat.lt_irrefl, decide_False, Bool.false_eq_true, if_false]
  decide

/-- Witness for C10: the level-13 voxel at the origin has no left neighbor. -/
theorem claim_C10_witness :
    addSize Face.left = false ∧
    getCoord (voxel.coordinates (voxel.mk 0 13 2)) (faceIndex Face.left) = 0 ∧
    (voxel.neighbor (voxel.mk 0 13 2) Face.left = voxelDefault ∧
     voxel.level voxelDefault = 0 ∧
     voxel.material voxelDefault = unknownMaterial ∧
     unknownMaterial ≠ voidMaterial ∧
     (∀ w : Nat, voxelDefault ≤ w)) :=
  ⟨by decide, by decide, claim_C10 (voxel.mk 0 13 2) Face.left (by decide) (by decide)⟩

/-- C5 counterexample: the first voxel placed in the builder buffer is the
default-constructed voxel (code 0, level 0), which differs from `root()`,
whose level field is `max_level = 13`. -/
theorem claim_C5_counterexample :
    buildSeed.getD 0 0 = voxelDefault ∧
    voxelDefault ≠ voxel.root ∧
    voxel.level voxel.root = maxLevel ∧
    voxel.level voxelDefault = 0 := by decide

/-- C5 amended: `octree::build` seeds the buffer with the default-constructed
voxel `voxel{}` (code 0: level field 0, coordinates `(0,0,0)`, material
`UNKNOWN`), which in this revision's convention (children increment the level
field) denotes the whole space; it is not equal to `voxel::root()`, whose
level field is `max_level = 13`. -/
theorem claim_C5_amended :
    buildSeed = [voxelDefault] ∧
    voxel.level voxelDefault = 0 ∧
    voxel.material voxelDefault = unknownMaterial ∧
    voxel.coordinates voxelDefault = (0, 0, 0) ∧
    voxelDefault ≠ voxel.root := by decide

/-- C4 counterexample: an octree holding a single `VOID` voxel (produced by
`build` with the always-void predicate) still makes the emitter write 8
vertices and 12 triangles, although `8 * N_nonvoid = 0`. -/
theorem claim_C4_counterexample :
    (build splitVoid).map voxel.material = [voidMaterial] ∧
    ((build splitVoid).filter
      (fun v => decide (voxel.material v ≠ voidMaterial))).length = 0 ∧
    (objVertices (build splitVoid)).length = 8 ∧
    (objTriangles (build splitVoid)).length = 12 ∧
    (8 : Nat) ≠ 8 * 0 := by decide

/-- C4 amended: the emitter writes a cube for every voxel of the octree — it
performs no material filtering — so the mesh contains exactly `8 * N` vertices
and `12 * N` triangles where `N` is the total number of stored voxels,
`VOID` ones included. -/
theorem claim_C4_amended (data : List Nat) :
    (objVertices data).length = 8 * data.length ∧
    (objTriangles data).length = 12 * data.length := by
  constructor
  · exact flatMap_const_length 8 voxel.corners (fun a => rfl) data
  · have h1 : ∀ idx : List Nat, (idx.flatMap (fun i =>
        objFaces.flatMap (fun f =>
          [((f.2.getD 0 0 + i + 1, f.2.getD 1 0 + i + 1, f.2.getD 2 0 + i + 1), f.1 + 1),
           ((f.2.getD 3 0 + i + 1, f.2.getD 4 0 + i + 1, f.2.getD 5 0 + i + 1),
            f.1 + 1)]))).length = 12 * idx.length :=
      flatMap_const_length 12 _ (fun a => rfl)
    unfold objTriangles
    rw [h1]
    unfold objIndexes
    rw [List.length_map, List.length_range]

/-- C7 counterexample: in the octree built by `splitOnce` (eight level-1
voxels), the first voxel lies on the left boundary, so its search key
`neighbor(left)` is the void voxel — yet `octree::neighbor` returns the
iterator at position 0, pointing at a stored voxel of the 8-element sequence,
instead of reporting "no neighbor". -/
theorem claim_C7_counterexample :
    (build splitOnce).getD 0 0 ∈ build splitOnce ∧
    voxel.neighbor ((build splitOnce).getD 0 0) Face.left = voxelDefault ∧
    octreeNeighbor (build splitOnce) ((build splitOnce).getD 0 0) Face.left = 0 ∧
    (build splitOnce).length = 8 := by decide

/-- C7 amended: `octree::neighbor` performs no boundary check at all: it
always returns `lower_bound(candidate)`.  When the candidate is the void
voxel (code 0), the lower bound on any non-empty sequence is position 0 —
an iterator to the first stored voxel, not an end/"no neighbor" result. -/
theorem claim_C7_amended (data : List Nat) (c : Nat) (d : Face)
    (hvoid : voxel.neighbor c d = voxelDefault) (hne : data ≠ []) :
    octreeNeighbor data c d = 0 ∧ 0 < data.length := by
  cases data with
  | nil => exact absurd rfl hne
  | cons a l =>
    refine ⟨?_, by simp⟩
    unfold octreeNeighbor lowerBound
    rw [hvoid, List.findIdx_cons]
    simp [voxelDefault]

/-- Witness for the amended C7 at the `splitOnce` octree. -/
theorem claim_C7_amended_witness :
    voxel.neighbor ((build splitOnce).getD 0 0) Face.left = voxelDefault ∧
    build splitOnce ≠ [] ∧
    (octreeNeighbor (build splitOnce) ((build splitOnce).getD 0 0) Face.left = 0 ∧
     0 < (build splitOnce).length) :=
  ⟨by decide, by decide,
   claim_C7_amended (build splitOnce) ((build splitOnce).getD 0 0) Face.left
     (by decide) (by decide)⟩

/-- C9: `octree::build` terminates for every split predicate: every loop
iteration either finalizes the current slot and advances, or replaces it with
child 0 and appends the remaining 7 children while staying in place, and the
loop variant `loopMeasure` (bounded by `2 * 8 ^ 13 - 1` on the initial
buffer, i.e. on the order of `8 ^ 13`) strictly decreases each time. -/
theorem claim_C9 (split : Nat → Nat) (data : List Nat) (i : Nat)
    (h : i < data.length) :
    ((buildStep split data i).2 = i + 1 ∨
      ((buildStep split data i).1.length = data.length + 7 ∧
       (buildStep split data i).2 = i)) ∧
    loopMeasure (buildStep split data i).1 (buildStep split data i).2 <
      loopMeasure data i ∧
    loopMeasure buildSeed 0 = 2 * 8 ^ 13 - 1 := by
  refine ⟨?_, buildStep_measure split data i h, by decide⟩
  unfold buildStep
  by_cases hc : voxel.level (data.getD i 0) < maxLevel ∧
      split (data.getD i 0) % 2 ^ 32 = unknownMaterial
  · rw [if_pos hc]
    right
    refine ⟨?_, rfl⟩
    rw [List.length_append, List.length_set, children_explicit]
    rfl
  · rw [if_neg hc]
    left
    rfl

/-- Witness for C9 on the seed buffer with the always-void predicate. -/
theorem claim_C9_witness :
    0 < buildSeed.length ∧
    (((buildStep splitVoid buildSeed 0).2 = 0 + 1 ∨
      ((buildStep splitVoid buildSeed 0).1.length = buildSeed.length + 7 ∧
       (buildStep splitVoid buildSeed 0).2 = 0)) ∧
     loopMeasure (buildStep splitVoid buildSeed 0).1
       (buildStep splitVoid buildSeed 0).2 < loopMeasure buildSeed 0 ∧
     loopMeasure buildSeed 0 = 2 * 8 ^ 13 - 1) :=
  ⟨by decide, claim_C9 splitVoid buildSeed 0 (by decide)⟩

/-- C2 counterexample: for the voxel at the origin with level field 12 and
material 5 (`height() = 1`, so the claim's precondition holds), the first
child has level 13, not `level - 1 = 11`, and the second child's Morton code
is `morton + 1`, not `morton + (1 << 3*(level-1)) = 2^33`. -/
theorem claim_C2_counterexample :
    voxel.height (voxel.mk 0 12 5) = 1 ∧
    voxel.level ((voxel.children (voxel.mk 0 12 5)).getD 0 0) = 13 ∧
    voxel.level (voxel.mk 0 12 5) - 1 = 11 ∧
    (13 : Nat) ≠ 11 ∧
    voxel.morton ((voxel.children (voxel.mk 0 12 5)).getD 1 0) = 1 ∧
    voxel.morton (voxel.mk 0 12 5) +
      1 * (1 <<< (3 * (voxel.level (voxel.mk 0 12 5) - 1))) = 2 ^ 33 ∧
    (1 : Nat) ≠ 2 ^ 33 := by decide

/-- C2 amended: for every well-formed voxel `v` with `level() < max_level`
(equivalently `height() > 0` with the level in range; well-formed means the
Morton code is aligned to the level and in bounds), `children()` returns 8
voxels that all have level `v.level() + 1` (one step deeper in this
revision's convention), material `v.material()`, Morton codes
`v.morton() + i * 2 ^ (3 * (max_level - v.level() - 1))` for `i = 0..7`, and
whose coordinate cubes tile `v`'s cube: they cover it exactly and are
pairwise disjoint. -/
theorem claim_C2_amended (v : Nat)
    (hl : voxel.level v < maxLevel)
    (halign : voxel.morton v % 8 ^ (maxLevel - voxel.level v) = 0)
    (hbound : voxel.morton v + 8 ^ (maxLevel - voxel.level v) ≤ 8 ^ maxLevel) :
    (voxel.children v).length = 8 ∧
    (∀ i, i < 8 →
      voxel.level ((voxel.children v).getD i 0) = voxel.level v + 1 ∧
      voxel.material ((voxel.children v).getD i 0) = voxel.material v ∧
      voxel.morton ((voxel.children v).getD i 0) =
        voxel.morton v + i * 2 ^ (3 * (maxLevel - voxel.level v - 1))) ∧
    (∀ pt : Nat × Nat × Nat,
      inCube pt (voxel.coordinates v) (voxel.size v) ↔
        ∃ i, i < 8 ∧
          inCube pt (voxel.coordinates ((voxel.children v).getD i 0))
            (voxel.size ((voxel.children v).getD i 0))) ∧
    (∀ i j, i < 8 → j < 8 → i ≠ j → ∀ pt : Nat × Nat × Nat,
      ¬(inCube pt (voxel.coordinates ((voxel.children v).getD i 0))
          (voxel.size ((voxel.children v).getD i 0)) ∧
        inCube pt (voxel.coordinates ((voxel.children v).getD j 0))
          (voxel.size ((voxel.children v).getD j 0)))) := by
  have hmax : maxLevel = 13 := rfl
  rw [hmax] at hl halign hbound
  have hG := fun (i : Nat) (hi : i < 8) => child_geometry v hl halign hbound i hi
  have hS := fun (i : Nat) (hi : i < 8) => child_spec v i hl hi hbound
  have hspos : 0 < 2 ^ (12 - voxel.level v) := Nat.pos_pow_of_pos _ (by omega)
  refine ⟨by rw [children_explicit]; rfl, ?_, ?_, ?_⟩
  · intro i hi
    rw [children_getD v i hi]
    obtain ⟨h1, h2, h3, _⟩ := hS i hi
    refine ⟨h1, h2, ?_⟩
    rw [h3, hmax, eight_pow,
      show 3 * (12 - voxel.level v) = 3 * (13 - voxel.level v - 1) by omega]
  · intro pt
    have hpar : voxel.size v = 2 ^ (12 - voxel.level v) * 2 := (hG 0 (by omega)).2.2
    constructor
    · intro hin
      obtain ⟨p1, p2, p3, p4, p5, p6⟩ := hin
      rw [hpar] at p2 p4 p6
      by_cases c1 : pt.1 < (voxel.coordinates v).1 + 2 ^ (12 - voxel.level v) <;>
        by_cases c2 : pt.2.1 < (voxel.coordinates v).2.1 + 2 ^ (12 - voxel.level v) <;>
          by_cases c3 : pt.2.2 < (voxel.coordinates v).2.2 + 2 ^ (12 - voxel.level v)
      · exact ⟨0, by omega, by
          rw [children_getD v 0 (by omega), (hG 0 (by omega)).1, (hG 0 (by omega)).2.1]
          unfold inCube
          simp only []
          omega⟩
      · exact ⟨4, by omega, by
          rw [children_getD v 4 (by omega), (hG 4 (by omega)).1, (hG 4 (by omega)).2.1]
          unfold inCube
          simp only []
          omega⟩
      · exact ⟨2, by omega, by
          rw [children_getD v 2 (by omega), (hG 2 (by omega)).1, (hG 2 (by omega)).2.1]
          unfold inCube
          simp only []
          omega⟩
      · exact ⟨6, by omega, by
          rw [children_getD v 6 (by omega), (hG 6 (by omega)).1, (hG 6 (by omega)).2.1]
          unfold inCube
          simp only []
          omega⟩
      · exact ⟨1, by omega, by
          rw [children_getD v 1 (by omega), (hG 1 (by omega)).1, (hG 1 (by omega)).2.1]
          unfold inCube
          simp only []
          omega⟩
      · exact ⟨5, by omega, by
          rw [children_getD v 5 (by omega), (hG 5 (by omega)).1, (hG 5 (by omega)).2.1]
          unfold inCube
          simp only []
          omega⟩
      · exact ⟨3, by omega, by
          rw [children_getD v 3 (by omega), (hG 3 (by omega)).1, (hG 3 (by omega)).2.1]
          unfold inCube
          simp only []
          omega⟩
      · exact ⟨7, by omega, by
          rw [children_getD v 7 (by omega), (hG 7 (by omega)).1, (hG 7 (by omega)).2.1]
          unfold inCube
          simp only []
          omega⟩
    · rintro ⟨i, hi, hin⟩
      rw [children_getD v i hi, (hG i hi).1, (hG i hi).2.1] at hin
      obtain ⟨p1, p2, p3, p4, p5, p6⟩ := hin
      have hpar2 : voxel.size v = 2 ^ (12 - voxel.level v) * 2 := (hG 0 (by omega)).2.2
      unfold inCube
      rw [hpar2]
      interval_cases i <;>
        simp only [] at p1 p2 p3 p4 p5 p6 ⊢ <;>
        omega
  · intro i j hi hj hne pt hcontra
    obtain ⟨hci, hcj⟩ := hcontra
    rw [children_getD v i hi, (hG i hi).1, (hG i hi).2.1] at hci
    rw [children_getD v j hj, (hG j hj).1, (hG j hj).2.1] at hcj
    obtain ⟨a1, a2, a3, a4, a5, a6⟩ := hci
    obtain ⟨b1, b2, b3, b4, b5, b6⟩ := hcj
    interval_cases i <;> interval_cases j <;>
      simp only [] at a1 a2 a3 a4 a5 a6 b1 b2 b3 b4 b5 b6 <;>
      omega

/-- Witness for the amended C2 at the level-12 origin voxel. -/
theorem claim_C2_amended_witness :
    voxel.level (voxel.mk 0 12 5) < maxLevel ∧
    voxel.morton (voxel.mk 0 12 5) %
      8 ^ (maxLevel - voxel.level (voxel.mk 0 12 5)) = 0 ∧
    voxel.morton (voxel.mk 0 12 5) +
      8 ^ (maxLevel - voxel.level (voxel.mk 0 12 5)) ≤ 8 ^ maxLevel ∧
    ((voxel.children (voxel.mk 0 12 5)).length = 8 ∧
     (∀ i, i < 8 →
       voxel.level ((voxel.children (voxel.mk 0 12 5)).getD i 0) =
         voxel.level (voxel.mk 0 12 5) + 1 ∧
       voxel.material ((voxel.children (voxel.mk 0 12 5)).getD i 0) =
         voxel.material (voxel.mk 0 12 5) ∧
       voxel.morton ((voxel.children (voxel.mk 0 12 5)).getD i 0) =
         voxel.morton (voxel.mk 0 12 5) +
           i * 2 ^ (3 * (maxLevel - voxel.level (voxel.mk 0 12 5) - 1))) ∧
     (∀ pt : Nat × Nat × Nat,
       inCube pt (voxel.coordinates (voxel.mk 0 12 5)) (voxel.size (voxel.mk 0 12 5)) ↔
         ∃ i, i < 8 ∧
           inCube pt (voxel.coordinates ((voxel.children (voxel.mk 0 12 5)).getD i 0))
             (voxel.size ((voxel.children (voxel.mk 0 12 5)).getD i 0))) ∧
     (∀ i j, i < 8 → j < 8 → i ≠ j → ∀ pt : Nat × Nat × Nat,
       ¬(inCube pt (voxel.coordinates ((voxel.children (voxel.mk 0 12 5)).getD i 0))
           (voxel.size ((voxel.children (voxel.mk 0 12 5)).getD i 0)) ∧
         inCube pt (voxel.coordinates ((voxel.children (voxel.mk 0 12 5)).getD j 0))
           (voxel.size ((voxel.children (voxel.mk 0 12 5)).getD j 0))))) :=
  ⟨by decide, by decide, by decide,
   claim_C2_amended (voxel.mk 0 12 5) (by decide) (by decide) (by decide)⟩

/-- C6 counterexample: for the voxel at the origin with level field 12 and
material 5 (size 2), the right move `0 + 2 = 2` stays inside
`[0, MAX_COORD]`, yet `neighbor(right)` is not the same-level voxel at
`(2,0,0)`: the source constructs the result with level `max_level = 13`. -/
theorem claim_C6_counterexample :
    voxel.size (voxel.mk 0 12 5) = 2 ∧
    (0 + 2 : Nat) ≤ maxCoordinate ∧
    voxel.neighbor (voxel.mk 0 12 5) Face.right ≠ voxel.mkCoords 2 0 0 12 5 ∧
    voxel.level (voxel.neighbor (voxel.mk 0 12 5) Face.right) = maxLevel ∧
    voxel.level (voxel.mk 0 12 5) = 12 := by decide

/-- C6 amended: for every voxel with an in-range level field,
`voxel::neighbor` moves the selected coordinate by `+size()` (positive faces)
or `-1` (negative faces) and builds the result with level `max_level = 13`
(not the source voxel's level) and the same material.  Only a negative face
with the coordinate already at 0 yields the default void voxel; on positive
faces the guard compares against the `uint16_t` maximum 65535, which never
fails for in-range voxels, so even a move past `MAX_COORD = 8191` constructs
an out-of-range voxel rather than a void one. -/
theorem claim_C6_amended (c : Nat) (d : Face) (hc : voxel.level c ≤ maxLevel) :
    (addSize d = true →
      voxel.neighbor c d =
        voxel.mkCoords
          (setCoord (voxel.coordinates c) (faceIndex d)
            (getCoord (voxel.coordinates c) (faceIndex d) + voxel.size c)).1
          (setCoord (voxel.coordinates c) (faceIndex d)
            (getCoord (voxel.coordinates c) (faceIndex d) + voxel.size c)).2.1
          (setCoord (voxel.coordinates c) (faceIndex d)
            (getCoord (voxel.coordinates c) (faceIndex d) + voxel.size c)).2.2
          maxLevel (voxel.material c)) ∧
    (addSize d = false → 0 < getCoord (voxel.coordinates c) (faceIndex d) →
      voxel.neighbor c d =
        voxel.mkCoords
          (setCoord (voxel.coordinates c) (faceIndex d)
            (getCoord (voxel.coordinates c) (faceIndex d) - 1)).1
          (setCoord (voxel.coordinates c) (faceIndex d)
            (getCoord (voxel.coordinates c) (faceIndex d) - 1)).2.1
          (setCoord (voxel.coordinates c) (faceIndex d)
            (getCoord (voxel.coordinates c) (faceIndex d) - 1)).2.2
          maxLevel (voxel.material c)) ∧
    (addSize d = false → getCoord (voxel.coordinates c) (faceIndex d) = 0 →
      voxel.neighbor c d = voxelDefault) := by
  have hmax : maxLevel = 13 := rfl
  have hcomp := coordinates_lt c (faceIndex d)
  have hsize : voxel.size c ≤ 2 ^ 13 := size_le c (by omega)
  refine ⟨?_, ?_, ?_⟩
  · intro hadd
    have hsafe : addIsSafe (getCoord (voxel.coordinates c) (faceIndex d))
        (voxel.size c) = true := by
      unfold addIsSafe
      simp only [decide_eq_true_eq]
      omega
    have hmod : (getCoord (voxel.coordinates c) (faceIndex d) + voxel.size c) % 2 ^ 16 =
        getCoord (voxel.coordinates c) (faceIndex d) + voxel.size c :=
      Nat.mod_eq_of_lt (by omega)
    simp only [voxel.neighbor, hadd, hsafe, Bool.true_and, Bool.not_true,
      Bool.false_and, Bool.or_false, if_true, hmod]
  · intro hadd hpos
    have hguard : decide (0 < getCoord (voxel.coordinates c) (faceIndex d)) = true := by
      simp only [decide_eq_true_eq]
      exact hpos
    simp only [voxel.neighbor, hadd, hguard, Bool.false_and, Bool.not_false,
      Bool.true_and, Bool.false_or, if_true, Bool.false_eq_true, if_false]
  · intro hadd h0
    simp only [voxel.neighbor, hadd, h0, Bool.false_and, Bool.not_false,
      Bool.true_and, Bool.false_or, Nat.lt_irrefl, decide_False,
      Bool.false_eq_true, if_false]
    decide

/-- Witness for the amended C6 at the level-12 origin voxel and the right
face. -/
theorem claim_C6_amended_witness :
    voxel.level (voxel.mk 0 12 5) ≤ maxLevel ∧
    ((addSize Face.right = true →
      voxel.neighbor (voxel.mk 0 12 5) Face.right =
        voxel.mkCoords
          (setCoord (voxel.coordinates (voxel.mk 0 12 5)) (faceIndex Face.right)
            (getCoord (voxel.coordinates (voxel.mk 0 12 5)) (faceIndex Face.right) +
              voxel.size (voxel.mk 0 12 5))).1
          (setCoord (voxel.coordinates (voxel.mk 0 12 5)) (faceIndex Face.right)
            (getCoord (voxel.coordinates (voxel.mk 0 12 5)) (faceIndex Face.right) +
              voxel.size (voxel.mk 0 12 5))).2.1
          (setCoord (voxel.coordinates (voxel.mk 0 12 5)) (faceIndex Face.right)
            (getCoord (voxel.coordinates (voxel.mk 0 12 5)) (faceIndex Face.right) +
              voxel.size (voxel.mk 0 12 5))).2.2
          maxLevel (voxel.material (voxel.mk 0 12 5))) ∧
     (addSize Face.right = false →
      0 < getCoord (voxel.coordinates (voxel.mk 0 12 5)) (faceIndex Face.right) →
      voxel.neighbor (voxel.mk 0 12 5) Face.right =
        voxel.mkCoords
          (setCoord (voxel.coordinates (voxel.mk 0 12 5)) (faceIndex Face.right)
            (getCoord (voxel.coordinates (voxel.mk 0 12 5)) (faceIndex Face.right) - 1)).1
          (setCoord (voxel.coordinates (voxel.mk 0 12 5)) (faceIndex Face.right)
            (getCoord (voxel.coordinates (voxel.mk 0 12 5)) (faceIndex Face.right) - 1)).2.1
          (setCoord (voxel.coordinates (voxel.mk 0 12 5)) (faceIndex Face.right)
            (getCoord (voxel.coordinates (voxel.mk 0 12 5)) (faceIndex Face.right) - 1)).2.2
          maxLevel (voxel.material (voxel.mk 0 12 5))) ∧
     (addSize Face.right = false →
      getCoord (voxel.coordinates (voxel.mk 0 12 5)) (faceIndex Face.right) = 0 →
      voxel.neighbor (voxel.mk 0 12 5) Face.right = voxelDefault)) :=
  ⟨by decide, claim_C6_amended (voxel.mk 0 12 5) Face.right (by decide)⟩

set_option maxRecDepth 1000000 in
/-- C1 counterexample: for the split predicate that leaves the Morton-0 path
undecided, the built octree contains the level-13 voxel with code
`pack(0, 13, 0)`, whose material is `UNKNOWN` — the loop's else branch stores
`with_material(UNKNOWN)` when the deepest level is reached while the
predicate still returns `UNKNOWN` (the TODO acknowledged in octree.cpp). -/
theorem claim_C1_counterexample :
    voxel.pack 0 13 0 ∈ build splitStuck ∧
    voxel.material (voxel.pack 0 13 0) = unknownMaterial := by decide

/-- C1 amended: for every split predicate that returns in-range materials and
never returns `UNKNOWN` on voxels of the deepest level, the built sequence is
strictly ascending by `code()` and contains no voxel with material
`UNKNOWN`. -/
theorem claim_C1_amended (split : Nat → Nat)
    (hrange : ∀ v, split v ≤ maxMaterial)
    (hdecided : ∀ v, voxel.level v = maxLevel → split v ≠ unknownMaterial) :
    List.Pairwise (· < ·) (build split) ∧
    ∀ v ∈ build split, voxel.material v ≠ unknownMaterial := by
  obtain ⟨hdisj, hmat⟩ := buildLoop_out split hrange hdecided
  have hnd : (buildLoop split buildSeed 0).Nodup := hdisj.imp (fun h => h.ne)
  constructor
  · have hsorted : (build split).Sorted (· ≤ ·) :=
      List.sorted_insertionSort (· ≤ ·) (buildLoop split buildSeed 0)
    have hnd2 : (build split).Nodup :=
      (List.perm_insertionSort (· ≤ ·) (buildLoop split buildSeed 0)).nodup_iff.mpr hnd
    exact hsorted.lt_of_le hnd2
  · intro w hw
    exact hmat w ((List.mem_insertionSort (· ≤ ·)).mp hw)

set_option maxRecDepth 1000000 in
/-- Witness for the amended C1 at the `splitOnce` predicate. -/
theorem claim_C1_amended_witness :
    (∀ v, splitOnce v ≤ maxMaterial) ∧
    (∀ v, voxel.level v = maxLevel → splitOnce v ≠ unknownMaterial) ∧
    (List.Pairwise (· < ·) (build splitOnce) ∧
     ∀ v ∈ build splitOnce, voxel.material v ≠ unknownMaterial) := by
  have h1 : ∀ v, splitOnce v ≤ maxMaterial := by
    intro v
    unfold splitOnce maxMaterial unknownMaterial
    split <;> norm_num
  have h2 : ∀ v, voxel.level v = maxLevel → splitOnce v ≠ unknownMaterial := by
    intro v hv
    unfold splitOnce
    rw [hv]
    simp [maxLevel, unknownMaterial]
  exact ⟨h1, h2, claim_C1_amended splitOnce h1 h2⟩

end Ocmesh
